import Mathlib

/-!
Verification of the osm-floorplans core against its specification.

The repository has two subsystems: a building-topology engine
(BuildingTopologySource, class Level) that routes features to building
levels and synthesizes wall polygons, and a label placement engine
(LabelLayer / LabelRenderer) that places label footprints avoiding
occupied regions.

The geometry kernel (JTS) is an external dependency of the repository.
Where a claim depends only on bookkeeping logic (which occupancy lists
are consulted, comparator signs, list routing), we model kernel
geometries as finite unions of closed axis-aligned rectangles with
integer coordinates, on which every kernel operation the code uses
(envelope, envelope intersection, exact intersection, translation) is
computable and exact.  Where a claim depends on metric geometry
(wall synthesis, buffering), we use point sets over the rational plane;
where it depends on trigonometry (entrance walkways), the real plane.
-/

namespace OsmFloorplans

/-- A closed axis-aligned rectangle, mirroring a jts Envelope
(constructor argument order x1 x2 y1 y2 as in the source). -/
structure Rect where
  x1 : ℤ
  x2 : ℤ
  y1 : ℤ
  y2 : ℤ
deriving DecidableEq, Repr

/-- Envelope intersection test as in jts Envelope.intersects:
the closed intervals overlap on both axes. -/
def Rect.meets (a b : Rect) : Bool :=
  decide (b.x1 ≤ a.x2 ∧ a.x1 ≤ b.x2 ∧ b.y1 ≤ a.y2 ∧ a.y1 ≤ b.y2)

/-- A kernel geometry for the bookkeeping layer: a finite union of
closed rectangles (label footprints are unions of measured text
rectangles; wall obstacles are arbitrary regions, modelled by their
rectangle decomposition). -/
abbrev Geom := List Rect

/-- Exact intersection test of two rectangle unions (jts
Geometry.intersects on this fragment). -/
def geomMeets (a b : Geom) : Bool :=
  a.any fun r => b.any fun s => r.meets s

/-- Merge two rectangles into their common bounding box. -/
def Rect.merge (a b : Rect) : Rect :=
  ⟨min a.x1 b.x1, max a.x2 b.x2, min a.y1 b.y1, max a.y2 b.y2⟩

/-- Bounding envelope of a geometry (jts getEnvelopeInternal); an
empty geometry has no envelope. -/
def envOf : Geom → Option Rect
  | [] => none
  | r :: rest =>
    match envOf rest with
    | none => some r
    | some e => some (r.merge e)

/-- Envelope prefilter test used by the renderer before the exact
intersection test. -/
def envMeets (a b : Geom) : Bool :=
  match envOf a, envOf b with
  | some e, some f => e.meets f
  | _, _ => false

/-- Translate a rectangle by a vector. -/
def Rect.shift (c : ℤ × ℤ) (r : Rect) : Rect :=
  ⟨r.x1 + c.1, r.x2 + c.1, r.y1 + c.2, r.y2 + c.2⟩

/-- Translate a geometry by a vector
(jts AffineTransformation.translationInstance). -/
def translateG (c : ℤ × ℤ) (g : Geom) : Geom :=
  g.map (Rect.shift c)

/-- Rectangle intersection is symmetric. -/
theorem Rect.meets_symm (a b : Rect) : a.meets b = b.meets a := by
  simp only [Rect.meets, decide_eq_decide]
  constructor <;> exact fun h => ⟨h.2.1, h.1, h.2.2.2, h.2.2.1⟩

/-- Geometry intersection in terms of member rectangles. -/
theorem geomMeets_iff (a b : Geom) :
    geomMeets a b = true ↔ ∃ r ∈ a, ∃ s ∈ b, r.meets s = true := by
  simp [geomMeets, List.any_eq_true]

/-- Geometry intersection is symmetric. -/
theorem geomMeets_symm (a b : Geom) : geomMeets a b = geomMeets b a := by
  by_cases h : geomMeets a b = true
  · obtain ⟨r, hr, s, hs, hm⟩ := (geomMeets_iff a b).1 h
    rw [h]
    exact ((geomMeets_iff b a).2 ⟨s, hs, r, hr, by rw [Rect.meets_symm]; exact hm⟩).symm
  · rw [Bool.not_eq_true] at h
    rw [h]
    by_contra hba
    have hba2 : geomMeets b a = true := by
      cases hg : geomMeets b a with
      | false => exact absurd hg.symm hba
      | true => rfl
    obtain ⟨s, hs, r, hr, hm⟩ := (geomMeets_iff b a).1 hba2
    have : geomMeets a b = true :=
      (geomMeets_iff a b).2 ⟨r, hr, s, hs, by rw [Rect.meets_symm]; exact hm⟩
    rw [this] at h
    exact Bool.true_eq_false.mp h

/-- Every member rectangle lies inside the envelope. -/
theorem envOf_bounds {g : Geom} {r : Rect} (h : r ∈ g) :
    ∃ e, envOf g = some e ∧ e.x1 ≤ r.x1 ∧ r.x2 ≤ e.x2 ∧ e.y1 ≤ r.y1 ∧ r.y2 ≤ e.y2 := by
  induction g with
  | nil => cases h
  | cons a rest ih =>
    rcases List.mem_cons.1 h with h1 | h2
    · subst h1
      cases hrest : envOf rest with
      | none => exact ⟨r, by simp [envOf, hrest], le_refl _, le_refl _, le_refl _, le_refl _⟩
      | some e =>
        refine ⟨r.merge e, by simp [envOf, hrest], ?_, ?_, ?_, ?_⟩ <;>
          simp only [Rect.merge]
        · exact min_le_left _ _
        · exact le_max_left _ _
        · exact min_le_left _ _
        · exact le_max_left _ _
    · obtain ⟨e, he, h1, h2, h3, h4⟩ := ih h2
      refine ⟨a.merge e, by simp [envOf, he], ?_, ?_, ?_, ?_⟩ <;>
        simp only [Rect.merge]
      · exact le_trans (min_le_right _ _) h1
      · exact le_trans h2 (le_max_right _ _)
      · exact le_trans (min_le_right _ _) h3
      · exact le_trans h4 (le_max_right _ _)

/-- Envelope soundness: if two geometries intersect exactly, their
envelopes intersect, so the envelope prefilter in the source never
masks a real intersection. -/
theorem geomMeets_imp_envMeets {a b : Geom} (h : geomMeets a b = true) :
    envMeets a b = true := by
  obtain ⟨r, hr, s, hs, hm⟩ := (geomMeets_iff a b).1 h
  obtain ⟨e, he, e1, e2, e3, e4⟩ := envOf_bounds hr
  obtain ⟨f, hf, f1, f2, f3, f4⟩ := envOf_bounds hs
  simp only [Rect.meets, decide_eq_true_eq] at hm
  simp only [envMeets, he, hf, Rect.meets, decide_eq_true_eq]
  exact ⟨le_trans f1 (le_trans hm.1 e2), le_trans e1 (le_trans hm.2.1 f2),
    le_trans f3 (le_trans hm.2.2.1 e4), le_trans e3 (le_trans hm.2.2.2 f4)⟩

/-! ## Label candidate ordering (LabelLayer.renderOrder)

A label candidate feature as the comparator sees it: whether its
geometry is area-bearing (instanceof Polygon or MultiPolygon), the
geometry area (getArea, meaningful for area-bearing geometries), and
the feature uid consumed by the ol defaultOrder tie-breaker. -/
structure LFeature where
  isArea : Bool
  area : ℤ
  uid : ℤ
deriving DecidableEq, Repr

/-- The ol defaultOrder fallback comparator: difference of feature
uids (external collaborator of the renderer). -/
def defaultOrder (f1 f2 : LFeature) : ℤ :=
  f1.uid - f2.uid

/-- LabelLayer.renderOrder from the source: area-bearing geometries
first, then by area difference g2.getArea() - g1.getArea()
(the source comment reads: draw smaller areas last), then
defaultOrder.  A negative comparator value sorts f1 before f2. -/
def renderOrder (f1 f2 : LFeature) : ℤ :=
  if f1.isArea && !f2.isArea then -1
  else if f2.isArea && !f1.isArea then 1
  else if f1.isArea && f2.isArea then f2.area - f1.area
  else defaultOrder f1 f2

/-! ## Level-range routing (BuildingTopologySource.levelsOfFeature)

parseLevel splits the level tag on semicolons into from/to pairs of
parsed numbers; that string parsing is an external-interface contract
and the parsed pairs are taken here as input.  levelsOfFeature maps
each pair to min(from,to) followed by successive increments of 1
while the value stays at most max(from,to). -/
def levelsOfPair (l : ℚ × ℚ) : List ℚ :=
  min l.1 l.2 ::
    (List.range ⌊max l.1 l.2 - min l.1 l.2⌋.toNat).map
      (fun i : ℕ => min l.1 l.2 + ((i : ℚ) + 1))

/-- All level numbers a feature with the given parsed level pairs is
routed to (the flatMap in levelsOfFeature). -/
def levelsOfFeature (pairs : List (ℚ × ℚ)) : List ℚ :=
  pairs.flatMap levelsOfPair

/-- Membership in the per-pair level list: exactly the values
min + k for natural k with min + k at most max. -/
theorem mem_levelsOfPair_iff (l : ℚ × ℚ) (q : ℚ) :
    q ∈ levelsOfPair l ↔
      ∃ k : ℕ, q = min l.1 l.2 + k ∧ q ≤ max l.1 l.2 := by
  have hle : min l.1 l.2 ≤ max l.1 l.2 := min_le_max
  constructor
  · intro h
    rcases List.mem_cons.1 h with h0 | h1
    · refine ⟨0, by simp [h0], ?_⟩
      rw [h0]
      exact min_le_max
    · obtain ⟨i, hi0, hq⟩ := List.mem_map.1 h1
      have hi : i < ⌊max l.1 l.2 - min l.1 l.2⌋.toNat := List.mem_range.1 hi0
      refine ⟨i + 1, by rw [← hq]; push_cast; ring, ?_⟩
      have h3 : (i : ℤ) < ⌊max l.1 l.2 - min l.1 l.2⌋ := by
        omega
      have h2 : ((i : ℤ) + 1 : ℚ) ≤ max l.1 l.2 - min l.1 l.2 := by
        calc ((i : ℤ) + 1 : ℚ) ≤ (⌊max l.1 l.2 - min l.1 l.2⌋ : ℚ) := by
              exact_mod_cast h3
          _ ≤ max l.1 l.2 - min l.1 l.2 := Int.floor_le _
      push_cast at h2
      rw [← hq]
      linarith
  · rintro ⟨k, hq, hqmx⟩
    cases k with
    | zero => exact List.mem_cons.2 (Or.inl (by simpa using hq))
    | succ j =>
      refine List.mem_cons.2 (Or.inr (List.mem_map.2 ⟨j, List.mem_range.2 ?_, by
        rw [hq]; push_cast; ring⟩))
      have hjq : ((j : ℚ) + 1) ≤ max l.1 l.2 - min l.1 l.2 := by
        rw [hq] at hqmx
        push_cast at hqmx
        linarith
      have h5 : ((j : ℤ) + 1 : ℚ) ≤ max l.1 l.2 - min l.1 l.2 := by push_cast; linarith
      have h6 : (j : ℤ) + 1 ≤ ⌊max l.1 l.2 - min l.1 l.2⌋ :=
        Int.le_floor.2 (by push_cast; linarith)
      omega

/-- C2: the claim fails on the code at a concrete input: the level tag
0.5-2 parses to the pair (1/2, 2); the integer level 1 lies in
[min, max] = [1/2, 2], yet the feature is not routed to level 1
(the code emits min, min + 1, ... which here is 1/2, 3/2), and it is
routed to the non-integer level 1/2. -/
theorem C2_counterexample :
    ((∃ n : ℤ, (1 : ℚ) = (n : ℚ)) ∧
      min (1/2 : ℚ) 2 ≤ 1 ∧ (1 : ℚ) ≤ max (1/2 : ℚ) 2) ∧
    (1 : ℚ) ∉ levelsOfFeature [(1/2, 2)] ∧
    (1/2 : ℚ) ∈ levelsOfFeature [(1/2, 2)] := by
  refine ⟨⟨⟨1, by norm_num⟩, by norm_num, le_trans (by norm_num) (le_max_right _ _)⟩, ?_, ?_⟩
  · intro hmem
    simp only [levelsOfFeature, List.mem_flatMap, List.mem_singleton] at hmem
    obtain ⟨p, hp, hq⟩ := hmem
    subst hp
    rw [mem_levelsOfPair_iff] at hq
    obtain ⟨k, hk, _⟩ := hq
    have hmin : min (1/2 : ℚ) 2 = 1/2 := by norm_num
    rw [hmin] at hk
    have h2 : ((2 * k : ℕ) : ℚ) = 1 := by push_cast; linarith
    have h3 : (2 * k : ℕ) = 1 := by exact_mod_cast h2
    omega
  · simp only [levelsOfFeature, List.mem_flatMap, List.mem_singleton]
    refine ⟨(1/2, 2), rfl, (mem_levelsOfPair_iff _ _).2 ⟨0, ?_, ?_⟩⟩
    · norm_num
    · exact le_trans (by norm_num) (le_max_right _ _)

/-- C2 (amended): for every feature whose level tag parses to pairs in
which min(from,to) is an integer, the feature is routed to exactly the
levels whose integer number lies in [min(from,to), max(from,to)] of
some pair, boundaries included; in particular a single-value tag 3
yields membership only in level 3.  (For a pair with non-integer
minimum the code instead emits the arithmetic progression
min, min + 1, ... truncated at max.) -/
theorem C2_theorem (pairs : List (ℚ × ℚ))
    (h : ∀ p ∈ pairs, ∃ m : ℤ, min p.1 p.2 = (m : ℚ)) :
    ∀ q : ℚ, q ∈ levelsOfFeature pairs ↔
      ∃ p ∈ pairs, (∃ n : ℤ, q = (n : ℚ)) ∧ min p.1 p.2 ≤ q ∧ q ≤ max p.1 p.2 := by
  intro q
  simp only [levelsOfFeature, List.mem_flatMap]
  constructor
  · rintro ⟨p, hp, hq⟩
    obtain ⟨m, hm⟩ := h p hp
    rw [mem_levelsOfPair_iff] at hq
    obtain ⟨k, hk, hmax⟩ := hq
    refine ⟨p, hp, ⟨m + k, by rw [hk, hm]; push_cast; ring⟩, ?_, hmax⟩
    rw [hk]
    exact le_add_of_nonneg_right (by positivity)
  · rintro ⟨p, hp, ⟨n, hn⟩, hmin, hmax⟩
    obtain ⟨m, hm⟩ := h p hp
    refine ⟨p, hp, (mem_levelsOfPair_iff p q).2 ⟨(n - m).toNat, ?_, hmax⟩⟩
    have hmn : (m : ℚ) ≤ (n : ℚ) := by
      rw [← hm, ← hn]
      exact hmin
    have hmn2 : m ≤ n := by exact_mod_cast hmn
    have ht : ((n - m).toNat : ℤ) = n - m := Int.toNat_of_nonneg (by omega)
    have ht2 : (((n - m).toNat : ℕ) : ℚ) = (n : ℚ) - (m : ℚ) := by
      exact_mod_cast congrArg (fun z : ℤ => (z : ℚ)) ht
    rw [hn, hm, ht2]
    ring

/-- C2 witness: the amended theorem evaluated at the single-value tag 3
(the pair (3, 3)), whose minimum is the integer 3; additionally the
emitted level list is exactly the one-element list 3. -/
theorem C2_witness :
    (∀ p ∈ [((3 : ℚ), (3 : ℚ))], ∃ m : ℤ, min p.1 p.2 = (m : ℚ)) ∧
    (∀ q : ℚ, q ∈ levelsOfFeature [((3 : ℚ), 3)] ↔
      ∃ p ∈ [((3 : ℚ), (3 : ℚ))],
        (∃ n : ℤ, q = (n : ℚ)) ∧ min p.1 p.2 ≤ q ∧ q ≤ max p.1 p.2) ∧
    levelsOfFeature [((3 : ℚ), 3)] = [3] := by
  have hh : ∀ p ∈ [((3 : ℚ), (3 : ℚ))], ∃ m : ℤ, min p.1 p.2 = (m : ℚ) := by
    intro p hp
    rw [List.mem_singleton] at hp
    subst hp
    exact ⟨3, by norm_num⟩
  refine ⟨hh, C2_theorem _ hh, ?_⟩
  simp [levelsOfFeature, levelsOfPair]

/-- C4: the claim fails on the code at a concrete input: for two
area-bearing candidates with areas 1 and 4, the comparator returns
4 - 1 = 3 > 0, so the smaller-area candidate sorts after the larger
one; the claim would require larger areas to come after smaller ones.
(The source comment itself reads: draw smaller areas last.) -/
theorem C4_counterexample :
    renderOrder ⟨true, 1, 0⟩ ⟨true, 4, 1⟩ = 3 ∧ (0 : ℤ) < 3 := by
  constructor
  · decide
  · decide

/-- C4 (amended): renderOrder places every area-bearing (polygon or
multi-polygon) candidate before every point candidate, and among
area-bearing candidates orders larger area before smaller (smaller
areas are placed last), so that larger areas claim space first.
A negative comparator value sorts the first argument earlier
(prepareFrame applies this comparator to the candidate list before
every placement pass). -/
theorem C4_theorem (f1 f2 : LFeature) :
    (f1.isArea = true → f2.isArea = false → renderOrder f1 f2 < 0) ∧
    (f1.isArea = false → f2.isArea = true → 0 < renderOrder f1 f2) ∧
    (f1.isArea = true → f2.isArea = true → f2.area < f1.area → renderOrder f1 f2 < 0) ∧
    (f1.isArea = true → f2.isArea = true → f1.area < f2.area → 0 < renderOrder f1 f2) := by
  refine ⟨fun h1 h2 => ?_, fun h1 h2 => ?_, fun h1 h2 h3 => ?_, fun h1 h2 h3 => ?_⟩
  · simp [renderOrder, h1, h2]
  · simp [renderOrder, h1, h2]
  · simp only [renderOrder, h1, h2]
    norm_num
    omega
  · simp only [renderOrder, h1, h2]
    norm_num
    omega

/-- C4 witness: the amended theorem evaluated on concrete candidates:
an area candidate against a point candidate (both directions), and two
area candidates with areas 5 and 2 (both directions). -/
theorem C4_witness :
    renderOrder ⟨true, 5, 0⟩ ⟨false, 2, 1⟩ < 0 ∧
    0 < renderOrder ⟨false, 2, 1⟩ ⟨true, 5, 0⟩ ∧
    renderOrder ⟨true, 5, 0⟩ ⟨true, 2, 1⟩ < 0 ∧
    0 < renderOrder ⟨true, 2, 1⟩ ⟨true, 5, 0⟩ :=
  ⟨(C4_theorem ⟨true, 5, 0⟩ ⟨false, 2, 1⟩).1 rfl rfl,
   (C4_theorem ⟨false, 2, 1⟩ ⟨true, 5, 0⟩).2.1 rfl rfl,
   (C4_theorem ⟨true, 5, 0⟩ ⟨true, 2, 1⟩).2.2.1 rfl rfl (by decide),
   (C4_theorem ⟨true, 2, 1⟩ ⟨true, 5, 0⟩).2.2.2 rfl rfl (by decide)⟩

/-! ## Per-frame label occupancy (LabelRenderer)

renderFrame resets occupiedByLabels to the empty list and records the
externally supplied occupied regions (the walls) in occupiedSpaces;
renderFeature then emits a label only through tryOccupy: with
checkOnlyLabels = true on the cached-placement path, and with
checkOnlyLabels = false at the end of every full placement search. -/
structure RendererState where
  occupiedSpaces : List Geom
  occupiedByLabels : List Geom
deriving DecidableEq, Repr

/-- One blocked-region list test: envelope prefilter, then exact
intersection, true when any member region hits. -/
def occHit (blocked : List Geom) (geo : Geom) : Bool :=
  blocked.any fun occupiedSpace =>
    envMeets occupiedSpace geo && geomMeets occupiedSpace geo

/-- LabelRenderer.intersectsOccupiedSpaces: always consults
occupiedByLabels; consults occupiedSpaces only when
checkOnlyLabels is false. -/
def intersectsOccupiedSpaces (st : RendererState) (geo : Geom)
    (checkOnlyLabels : Bool) : Bool :=
  occHit st.occupiedByLabels geo || (!checkOnlyLabels && occHit st.occupiedSpaces geo)

/-- Cached label parameters: footprint shape relative to the anchor,
plus the measured label box size. -/
structure LabelParam where
  shape : Geom
  width : ℤ
  height : ℤ
deriving DecidableEq, Repr

/-- LabelRenderer.tryOccupy: translate the cached shape to the anchor,
test it against the occupancy sets, and on success push it onto
occupiedByLabels; returns the new state and the placed footprint
(the source returns the label envelope, a truthy value). -/
def tryOccupy (st : RendererState) (center : ℤ × ℤ) (labelParams : LabelParam)
    (checkOnlyLabels : Bool) : Option (RendererState × Geom) :=
  let labelGeom := translateG center labelParams.shape
  if intersectsOccupiedSpaces st labelGeom checkOnlyLabels then none
  else some ({ st with occupiedByLabels := st.occupiedByLabels ++ [labelGeom] }, labelGeom)

/-- One label-emission request of a placement pass: cacheHit is true
exactly on the cached-placement path of renderFeature (which calls
tryOccupy with checkOnlyLabels = true); a full placement search ends
in tryOccupy with checkOnlyLabels = false. -/
structure PlaceReq where
  cacheHit : Bool
  center : ℤ × ℤ
  param : LabelParam
deriving DecidableEq, Repr

/-- A placement pass over the candidate list: each candidate emits its
footprint exactly when its tryOccupy call succeeds (renderWorld over
this.features). -/
def runPass (st : RendererState) : List PlaceReq → RendererState × List (Bool × Geom)
  | [] => (st, [])
  | r :: rest =>
    match tryOccupy st r.center r.param r.cacheHit with
    | some (st2, g) =>
      let out := runPass st2 rest
      (out.1, (r.cacheHit, g) :: out.2)
    | none => runPass st rest

/-- From a successful tryOccupy: the placed footprint intersects no
label already in occupiedByLabels, and, when checkOnlyLabels is
false, no external occupied region either. -/
theorem tryOccupy_sound {st : RendererState} {center : ℤ × ℤ} {lp : LabelParam}
    {flag : Bool} {st2 : RendererState} {g : Geom}
    (h : tryOccupy st center lp flag = some (st2, g)) :
    g = translateG center lp.shape ∧
    st2 = { st with occupiedByLabels := st.occupiedByLabels ++ [g] } ∧
    (∀ o ∈ st.occupiedByLabels, geomMeets g o = false) ∧
    (flag = false → ∀ o ∈ st.occupiedSpaces, geomMeets g o = false) := by
  simp only [tryOccupy] at h
  by_cases hb : intersectsOccupiedSpaces st (translateG center lp.shape) flag = true
  · rw [if_pos hb] at h
    cases h
  · rw [if_neg hb] at h
    rw [Option.some_inj] at h
    injection h with hst hgg
    subst hgg
    have hocc : occHit st.occupiedByLabels (translateG center lp.shape) = false := by
      cases hLab : occHit st.occupiedByLabels (translateG center lp.shape) with
      | false => rfl
      | true => exact absurd (by simp [intersectsOccupiedSpaces, hLab]) hb
    have hext : flag = false →
        occHit st.occupiedSpaces (translateG center lp.shape) = false := by
      intro hf
      subst hf
      cases hExt : occHit st.occupiedSpaces (translateG center lp.shape) with
      | false => rfl
      | true => exact absurd (by simp [intersectsOccupiedSpaces, hExt]) hb
    refine ⟨rfl, hst.symm, ?_, ?_⟩
    · intro o ho
      cases hmm : geomMeets (translateG center lp.shape) o with
      | false => rfl
      | true =>
        have hmo : geomMeets o (translateG center lp.shape) = true := by
          rw [geomMeets_symm]; exact hmm
        have : occHit st.occupiedByLabels (translateG center lp.shape) = true := by
          simp only [occHit, List.any_eq_true]
          exact ⟨o, ho, by rw [geomMeets_imp_envMeets hmo, hmo]; rfl⟩
        rw [this] at hocc
        exact hocc
    · intro hf o ho
      have hocc2 := hext hf
      cases hmm : geomMeets (translateG center lp.shape) o with
      | false => rfl
      | true =>
        have hmo : geomMeets o (translateG center lp.shape) = true := by
          rw [geomMeets_symm]; exact hmm
        have : occHit st.occupiedSpaces (translateG center lp.shape) = true := by
          simp only [occHit, List.any_eq_true]
          exact ⟨o, ho, by rw [geomMeets_imp_envMeets hmo, hmo]; rfl⟩
        rw [this] at hocc2
        exact hocc2

/-- Pass soundness, by induction over the candidate list: every
emitted footprint avoids every label geometry present in
occupiedByLabels when its request ran, the emitted footprints are
pairwise disjoint, and footprints emitted by a full placement search
(cacheHit = false) avoid the external occupied regions. -/
theorem runPass_sound (reqs : List PlaceReq) : ∀ st : RendererState,
    (∀ e ∈ (runPass st reqs).2,
      (∀ o ∈ st.occupiedByLabels, geomMeets e.2 o = false) ∧
      (e.1 = false → ∀ o ∈ st.occupiedSpaces, geomMeets e.2 o = false)) ∧
    List.Pairwise (fun a b : Bool × Geom => geomMeets a.2 b.2 = false)
      (runPass st reqs).2 := by
  induction reqs with
  | nil =>
    intro st
    constructor
    · intro e he
      simp only [runPass] at he
      cases he
    · exact List.Pairwise.nil
  | cons r rest ih =>
    intro st
    cases htry : tryOccupy st r.center r.param r.cacheHit with
    | none =>
      simp only [runPass, htry]
      exact ih st
    | some p =>
      obtain ⟨st2, g⟩ := p
      obtain ⟨hg, hst2, hlab, hext⟩ := tryOccupy_sound htry
      simp only [runPass, htry]
      have ih2 := ih st2
      constructor
      · intro e he
        rcases List.mem_cons.1 he with h1 | h2
        · subst h1
          exact ⟨hlab, hext⟩
        · have := (ih2.1 e h2).1
          have hsp := (ih2.1 e h2).2
          rw [hst2] at this hsp
          simp only [List.mem_append] at this
          exact ⟨fun o ho => this o (Or.inl ho), hsp⟩
      · refine List.Pairwise.cons ?_ ih2.2
        intro b hb
        have := (ih2.1 b hb).1
        rw [hst2] at this
        have hbg : geomMeets b.2 g = false :=
          this g (by simp)
        rw [geomMeets_symm]
        exact hbg

/-- C1: the claim fails on the code at a concrete input: a placement
pass whose external occupancy holds the wall region covering
[0,10] x [0,10] re-occupies a cached footprint [0,1] x [0,1] (the
cached path calls tryOccupy with checkOnlyLabels = true, which skips
the occupiedSpaces list), emitting a footprint that intersects an
externally occupied region. -/
theorem C1_counterexample :
    (runPass ⟨[[⟨0, 10, 0, 10⟩]], []⟩
        [⟨true, (0, 0), ⟨[⟨0, 1, 0, 1⟩], 1, 1⟩⟩]).2 =
      [(true, [⟨0, 1, 0, 1⟩])] ∧
    geomMeets [⟨0, 1, 0, 1⟩] [⟨0, 10, 0, 10⟩] = true := by
  constructor
  · decide
  · decide

/-- C1 (amended): in every placement pass starting with an empty
per-pass label occupancy, the emitted footprints are pairwise
non-intersecting (no emitted footprint intersects a label already
placed in the same pass), and every footprint emitted by a full
placement search (not re-occupied from the cache) intersects no
externally supplied occupied region; footprints re-occupied from the
per-feature cache are only re-checked against labels, not against the
external occupancy. -/
theorem C1_theorem (st : RendererState) (reqs : List PlaceReq)
    (_hstart : st.occupiedByLabels = []) :
    List.Pairwise (fun a b : Bool × Geom => geomMeets a.2 b.2 = false)
      (runPass st reqs).2 ∧
    ∀ e ∈ (runPass st reqs).2, e.1 = false →
      ∀ o ∈ st.occupiedSpaces, geomMeets e.2 o = false := by
  obtain ⟨h1, h2⟩ := runPass_sound reqs st
  exact ⟨h2, fun e he => (h1 e he).2⟩

/-- C1 witness: the amended theorem evaluated on a concrete pass with
one wall obstacle, one colliding fresh candidate (rejected) and one
disjoint fresh candidate (emitted). -/
theorem C1_witness :
    List.Pairwise (fun a b : Bool × Geom => geomMeets a.2 b.2 = false)
      (runPass ⟨[[⟨0, 10, 0, 10⟩]], []⟩
        [⟨false, (0, 0), ⟨[⟨5, 6, 5, 6⟩], 1, 1⟩⟩,
         ⟨false, (0, 0), ⟨[⟨20, 21, 20, 21⟩], 1, 1⟩⟩]).2 ∧
    ∀ e ∈ (runPass ⟨[[⟨0, 10, 0, 10⟩]], []⟩
        [⟨false, (0, 0), ⟨[⟨5, 6, 5, 6⟩], 1, 1⟩⟩,
         ⟨false, (0, 0), ⟨[⟨20, 21, 20, 21⟩], 1, 1⟩⟩]).2, e.1 = false →
      ∀ o ∈ ([[⟨0, 10, 0, 10⟩]] : List Geom), geomMeets e.2 o = false :=
  C1_theorem ⟨[[⟨0, 10, 0, 10⟩]], []⟩
    [⟨false, (0, 0), ⟨[⟨5, 6, 5, 6⟩], 1, 1⟩⟩,
     ⟨false, (0, 0), ⟨[⟨20, 21, 20, 21⟩], 1, 1⟩⟩] rfl

/-! ## The placement search loop (LabelRenderer.renderFeature, point path)

The DOM measurement of label content is an external collaborator: the
label provider fills the label element for a variant, and the layout
engine reports content presence, scroll width and client rectangles as
a function of the variant and the current width style.  Variants are
identified by numbers (0 is the default variant).  The while loop over
variants can diverge in the source if providers cycle; a fuel
parameter bounds it here. -/
structure ProviderResult where
  fallbackVariant : Option ℕ
  allowExtendingGeometry : Bool
deriving DecidableEq, Repr

/-- External measurement callbacks: provide mirrors the label provider
return value (LabelPlacementOptions or void), hasContent whether the
provider filled the label, scrollW the label scrollWidth, and measure
the rectangle union getRectsJts builds from the client rectangles,
re-centered on the anchor, as a function of variant and width style. -/
structure PointCfg where
  provide : ℕ → Option ProviderResult
  hasContent : ℕ → Bool
  scrollW : ℕ → Option ℤ → ℤ
  measure : ℕ → Option ℤ → Geom

/-- Envelope width (jts Envelope.getWidth, 0 for an empty geometry). -/
def envW (g : Geom) : ℤ :=
  match envOf g with
  | some e => e.x2 - e.x1
  | none => 0

/-- Envelope height (jts Envelope.getHeight, 0 for an empty geometry). -/
def envH (g : Geom) : ℤ :=
  match envOf g with
  | some e => e.y2 - e.y1
  | none => 0

/-- Mutable state of the search loop: maxWidth, the current
label.style.width (none when never set), and the cache slot for the
current zoom bucket (none is the undefined slot, some none the null
no-fit marker, some (some p) a stored candidate). -/
structure LoopSt where
  maxWidth : ℤ
  widthStyle : Option ℤ
  cache : Option (Option LabelParam)
deriving DecidableEq, Repr

/-- How the inner for loop ended: ret is the sub-30 early return from
renderFeature, fall is falling through to the tryOccupy call. -/
inductive InnerExit
  | ret
  | fall
deriving DecidableEq, Repr

/-- The aspect-ratio preference for the point path: the new candidate
replaces the old one when its ratio is smaller but still above 2.3
(the source computes newLabelWidth / newLabelHeight as floating point;
division by zero height is outside the modelled scope). -/
def ratioCond (newW newH oldW oldH : ℤ) : Bool :=
  decide ((newW : ℚ) / (newH : ℚ) < (oldW : ℚ) / (oldH : ℚ)) &&
    decide ((23 : ℚ) / 10 < (newW : ℚ) / (newH : ℚ))

/-- One iteration of the for (i = 0; i < 10; i++) loop of the point
path: measure the content, run the found-okay block (store a
candidate, or break when a previous candidate exists and the ratio
preference fails), then shrink maxWidth to the measured envelope
width minus 50, aborting the whole placement when it falls below 30
with nothing cached yet.  Sum.inl ends the loop with the given exit,
Sum.inr continues with the shrunk state. -/
def innerStep (cfg : PointCfg) (rs : RendererState) (center : ℤ × ℤ) (v : ℕ)
    (allowExt : Bool) (st : LoopSt) : (LoopSt × InnerExit) ⊕ LoopSt :=
  let shape := cfg.measure v st.widthStyle
  let passed := allowExt || !(intersectsOccupiedSpaces rs shape false)
  let stored : Option LoopSt :=
    if passed then
      match st.cache with
      | some (some old) =>
        if ratioCond (envW shape) (envH shape) old.width old.height then
          some { st with cache := some (some
            ⟨translateG (-center.1, -center.2) shape, envW shape, envH shape⟩) }
        else none
      | _ => some { st with cache := some (some
          ⟨translateG (-center.1, -center.2) shape, envW shape, envH shape⟩) }
    else some st
  match stored with
  | none => Sum.inl (st, InnerExit.fall)
  | some st2 =>
    let mw := envW shape - 50
    if mw < 30 ∧ st2.cache = none then
      Sum.inl ({ st2 with maxWidth := mw, cache := some none }, InnerExit.ret)
    else
      Sum.inr { st2 with maxWidth := mw, widthStyle := some mw }

/-- The bounded for loop of the point path (10 iterations in the
source), driven by innerStep. -/
def innerLoop (cfg : PointCfg) (rs : RendererState) (center : ℤ × ℤ) (v : ℕ)
    (allowExt : Bool) : ℕ → LoopSt → LoopSt × InnerExit
  | 0, st => (st, InnerExit.fall)
  | k + 1, st =>
    match innerStep cfg rs center v allowExt st with
    | Sum.inl out => out
    | Sum.inr st2 => innerLoop cfg rs center v allowExt k st2

/-- Result of one renderFeature point-path invocation: final occupancy
state, final cache slot, the variants consulted (label provider calls,
in order), and the emitted footprint if a label was placed. -/
structure PointRun where
  rs : RendererState
  cache : Option (Option LabelParam)
  consulted : List ℕ
  emitted : Option Geom
deriving DecidableEq, Repr

/-- The while (variant) loop of the point path.  Each round consults
the provider, aborts on empty content, skips the variant when the
scroll width overflows maxWidth (continue), otherwise runs the inner
search loop and then either returns early (sub-30 abort), places the
stored candidate through tryOccupy, or advances to the fallback
variant. -/
def variantLoop (cfg : PointCfg) (center : ℤ × ℤ) :
    ℕ → Option ℕ → RendererState → LoopSt → List ℕ → PointRun
  | _, none, rs, st, consulted => ⟨rs, st.cache, consulted, none⟩
  | 0, some _, rs, st, consulted => ⟨rs, st.cache, consulted, none⟩
  | fuel + 1, some v, rs, st, consulted =>
    let res := cfg.provide v
    let nextVariant := match res with
      | some r => r.fallbackVariant
      | none => none
    let allowExt := match res with
      | some r => r.allowExtendingGeometry
      | none => false
    let consulted2 := consulted ++ [v]
    if cfg.hasContent v = false then
      ⟨rs, some none, consulted2, none⟩
    else if allowExt = false ∧ st.maxWidth < cfg.scrollW v st.widthStyle then
      variantLoop cfg center fuel nextVariant rs { st with cache := some none } consulted2
    else
      match innerLoop cfg rs center v allowExt 10 st with
      | (st2, InnerExit.ret) => ⟨rs, st2.cache, consulted2, none⟩
      | (st2, InnerExit.fall) =>
        match st2.cache with
        | some (some lp) =>
          match tryOccupy rs center lp false with
          | some (rs2, g) => ⟨rs2, st2.cache, consulted2, some g⟩
          | none =>
            variantLoop cfg center fuel nextVariant rs { st2 with cache := some none } consulted2
        | _ =>
          variantLoop cfg center fuel nextVariant rs { st2 with cache := some none } consulted2

/-- Full placement search for a point feature with an empty cache
slot: maxWidth starts at the arbitrary 500, no width style set,
starting from the default variant 0. -/
def renderFeaturePoint (cfg : PointCfg) (rs : RendererState) (center : ℤ × ℤ)
    (fuel : ℕ) : PointRun :=
  variantLoop cfg center fuel (some 0) rs ⟨500, none, none⟩ []

/-- Concrete configuration for the C7 counterexample: the default
variant 0 names variant 1 as fallback, content of scroll width 60
measures to the rectangle [0,60] x [0,10]. -/
def c7cfg : PointCfg :=
  { provide := fun v => if v = 0 then some ⟨some 1, false⟩ else some ⟨none, false⟩
    hasContent := fun _ => true
    scrollW := fun _ _ => 60
    measure := fun _ _ => [⟨0, 60, 0, 10⟩] }

/-- C7: the claim fails on the code at a concrete input: with an
external obstacle covering [0,100] x [0,100], the measured content of
the default variant collides, the shrunk width 60 - 50 = 10 falls
below 30 with nothing cached, and the engine caches the no-fit marker
and stops: only variant 0 is ever consulted and nothing is emitted,
even though the provider named variant 1 as fallback. -/
theorem C7_counterexample :
    renderFeaturePoint c7cfg ⟨[[⟨0, 100, 0, 100⟩]], []⟩ (0, 0) 5 =
      ⟨⟨[[⟨0, 100, 0, 100⟩]], []⟩, some none, [0], none⟩ ∧
    c7cfg.provide 0 = some ⟨some 1, false⟩ := by
  constructor
  · decide
  · rfl

/-- C7 (amended): in the placement search loop, when the current
variant has content that fits the scroll-width check but the shrunk
candidate width falls below the 30-unit minimum with no candidate
stored for the zoom bucket, the feature is immediately cached as
having no label and the whole placement returns, without advancing to
the caller-specified fallback variant even when one remains; the
advance-to-fallback-and-restart behaviour applies to the other
abandonment paths, such as the scroll-width overflow check. -/
theorem C7_theorem (cfg : PointCfg) (center : ℤ × ℤ) (fuel : ℕ) (v v2 : ℕ)
    (r : ProviderResult) (rs : RendererState) (st : LoopSt) (consulted : List ℕ)
    (hres : cfg.provide v = some r) (hfb : r.fallbackVariant = some v2)
    (hallow : r.allowExtendingGeometry = false)
    (hcont : cfg.hasContent v = true) :
    (cfg.scrollW v st.widthStyle ≤ st.maxWidth →
      st.cache = none →
      intersectsOccupiedSpaces rs (cfg.measure v st.widthStyle) false = true →
      envW (cfg.measure v st.widthStyle) - 50 < 30 →
      variantLoop cfg center (fuel + 1) (some v) rs st consulted =
        ⟨rs, some none, consulted ++ [v], none⟩) ∧
    (st.maxWidth < cfg.scrollW v st.widthStyle →
      variantLoop cfg center (fuel + 1) (some v) rs st consulted =
        variantLoop cfg center fuel (some v2) rs
          { st with cache := some none } (consulted ++ [v])) := by
  constructor
  · intro hscroll hcache hcollide hsmall
    have hstep : innerStep cfg rs center v r.allowExtendingGeometry st =
        Sum.inl (({ st with
            maxWidth := envW (cfg.measure v st.widthStyle) - 50,
            cache := some none } : LoopSt), InnerExit.ret) := by
      simp only [innerStep, hallow, hcollide, Bool.not_true, Bool.false_or,
        Bool.false_eq_true, if_false]
      rw [if_pos ⟨hsmall, hcache⟩]
    have hinner : innerLoop cfg rs center v r.allowExtendingGeometry 10 st =
        (({ st with
            maxWidth := envW (cfg.measure v st.widthStyle) - 50,
            cache := some none } : LoopSt), InnerExit.ret) := by
      rw [show (10 : ℕ) = 9 + 1 from rfl]
      simp only [innerLoop, hstep]
    simp only [variantLoop, hres, hcont]
    rw [if_neg (by simp), if_neg (by simp [hallow, not_lt.2 hscroll]), hinner]
  · intro hscroll
    simp only [variantLoop, hres, hcont]
    rw [if_neg (by simp), if_pos ⟨hallow, hscroll⟩, hfb]

/-- Concrete configuration for the C7 witness, sub-30 branch: content
of scroll width 70 measuring to [0,70] x [0,10]. -/
def c7cfgA : PointCfg :=
  { provide := fun v => if v = 0 then some ⟨some 1, false⟩ else some ⟨none, false⟩
    hasContent := fun _ => true
    scrollW := fun _ _ => 70
    measure := fun _ _ => [⟨0, 70, 0, 10⟩] }

/-- Concrete configuration for the C7 witness, overflow branch:
content of scroll width 600, exceeding the initial maxWidth 500. -/
def c7cfgB : PointCfg :=
  { provide := fun v => if v = 0 then some ⟨some 1, false⟩ else some ⟨none, false⟩
    hasContent := fun _ => true
    scrollW := fun _ _ => 600
    measure := fun _ _ => [⟨0, 70, 0, 10⟩] }

/-- C7 witness: the amended theorem evaluated on concrete inputs, one
exercising the sub-30 abort-everything branch, one exercising the
advance-to-fallback branch of the scroll-width overflow check. -/
theorem C7_witness :
    (variantLoop c7cfgA (0, 0) (4 + 1) (some 0) ⟨[[⟨0, 200, 0, 200⟩]], []⟩
        ⟨500, none, none⟩ [] =
      ⟨⟨[[⟨0, 200, 0, 200⟩]], []⟩, some none, [0], none⟩) ∧
    (variantLoop c7cfgB (0, 0) (4 + 1) (some 0) ⟨[[⟨0, 200, 0, 200⟩]], []⟩
        ⟨500, none, none⟩ [] =
      variantLoop c7cfgB (0, 0) 4 (some 1) ⟨[[⟨0, 200, 0, 200⟩]], []⟩
        ⟨500, none, some none⟩ [0]) :=
  ⟨(C7_theorem c7cfgA (0, 0) 4 0 1 ⟨some 1, false⟩ ⟨[[⟨0, 200, 0, 200⟩]], []⟩
      ⟨500, none, none⟩ [] rfl rfl rfl rfl).1
      (by decide) rfl (by decide) (by decide),
   (C7_theorem c7cfgB (0, 0) 4 0 1 ⟨some 1, false⟩ ⟨[[⟨0, 200, 0, 200⟩]], []⟩
      ⟨500, none, none⟩ [] rfl rfl rfl rfl).2
      (by decide)⟩

/-! ## Topology engine state (class Level, BuildingTopologySource)

The topology engine stores map-unit geometry with fractional widths
(outer wall width 0.4), so this layer uses rational coordinates.  A
kernel geometry is again a finite union of closed rectangles; the
kernel union is list concatenation (exact), and the kernel buffer is
modelled as the per-rectangle expansion (the Chebyshev counterpart of
the round jts buffer; the routing logic treats the buffer result as a
black box, so only its monotonicity matters to the claims below). -/
structure QRect where
  x1 : ℚ
  x2 : ℚ
  y1 : ℚ
  y2 : ℚ
deriving DecidableEq, Repr

/-- Envelope intersection test on rational rectangles. -/
def QRect.meets (a b : QRect) : Bool :=
  decide (b.x1 ≤ a.x2 ∧ a.x1 ≤ b.x2 ∧ b.y1 ≤ a.y2 ∧ a.y1 ≤ b.y2)

/-- Rational-coordinate kernel geometry. -/
abbrev QGeom := List QRect

/-- Exact intersection test. -/
def qGeomMeets (a b : QGeom) : Bool :=
  a.any fun r => b.any fun s => r.meets s

/-- Bounding-box merge. -/
def QRect.merge (a b : QRect) : QRect :=
  ⟨min a.x1 b.x1, max a.x2 b.x2, min a.y1 b.y1, max a.y2 b.y2⟩

/-- Bounding envelope (getEnvelopeInternal); none for an empty
geometry (the jts null envelope, which intersects nothing). -/
def qEnvOf : QGeom → Option QRect
  | [] => none
  | r :: rest =>
    match qEnvOf rest with
    | none => some r
    | some e => some (r.merge e)

/-- Envelope prefilter on geometries. -/
def qEnvMeets (a b : QGeom) : Bool :=
  match qEnvOf a, qEnvOf b with
  | some e, some f => e.meets f
  | _, _ => false

/-- The points of a closed rectangle. -/
def QRect.toSet (r : QRect) : Set (ℚ × ℚ) :=
  { p | r.x1 ≤ p.1 ∧ p.1 ≤ r.x2 ∧ r.y1 ≤ p.2 ∧ p.2 ≤ r.y2 }

/-- Point-set semantics of a geometry: the union of its rectangles. -/
def qPointSet (g : QGeom) : Set (ℚ × ℚ) :=
  { p | ∃ r ∈ g, p ∈ r.toSet }

/-- Per-rectangle expansion by a width (the buffer model at this
layer). -/
def qExpand (w : ℚ) (r : QRect) : QRect :=
  ⟨r.x1 - w, r.x2 + w, r.y1 - w, r.y2 + w⟩

/-- Kernel buffer model: expand every member rectangle. -/
def qBuffer (w : ℚ) (g : QGeom) : QGeom :=
  g.map (qExpand w)

/-- A feature as the topology engine sees it: the parsed level pairs,
its kernel geometry, whether the ol geometry is a Polygon or
MultiPolygon (the only case in which Level.addFeature grows the
region), whether it is an entrance point of recognized kind, and its
identity. -/
structure RFeature where
  levelPairs : List (ℚ × ℚ)
  geom : QGeom
  isArea : Bool
  isEntrancePoint : Bool
  fid : ℕ
deriving DecidableEq, Repr

/-- The outerWallWidth field of class Level. -/
def outerWallWidth : ℚ := 2/5

/-- Class Level: level number, accumulated region geometry, member
features, the dirty flag, the identity of the synthesized wall
feature created in the constructor, and the pending entrance queue. -/
structure RLevel where
  levelNumber : ℚ
  geometry : QGeom
  features : List RFeature
  wallRebuildRequired : Bool
  wallId : ℕ
  unhandledEntrances : List RFeature
deriving DecidableEq, Repr

/-- Level.intersects: envelope test, then exact RelateOp test. -/
def RLevel.intersectsQ (l : RLevel) (geo : QGeom) : Bool :=
  qEnvMeets l.geometry geo && qGeomMeets l.geometry geo

/-- Level.mergeIn: union the region geometries and concatenate the
member lists; the receiver survives. -/
def RLevel.mergeIn (l other : RLevel) : RLevel :=
  { l with geometry := l.geometry ++ other.geometry,
           features := l.features ++ other.features }

/-- Level.addFeature: push the feature; when its geometry is a
Polygon or MultiPolygon, union the region with the feature geometry
buffered by outerWallWidth; set the dirty flag; queue entrance
points. -/
def RLevel.addFeature (l : RLevel) (f : RFeature) : RLevel :=
  { l with
    features := l.features ++ [f],
    geometry := if f.isArea then l.geometry ++ qBuffer outerWallWidth f.geom
      else l.geometry,
    wallRebuildRequired := true,
    unhandledEntrances := if f.isEntrancePoint then l.unhandledEntrances ++ [f]
      else l.unhandledEntrances }

/-- BuildingTopologySource state: the tracked levels, the wall feature
ids and plain feature ids present in the resultingFeatures source, and
a counter providing fresh wall identities. -/
structure BTS where
  levels : List RLevel
  resultWalls : List ℕ
  resultFeatures : List ℕ
  nextWallId : ℕ
deriving DecidableEq, Repr

/-- BuildingTopologySource.getLevels: all tracked levels with the
given number whose region intersects the geometry; if none, create a
new Level seeded with the geometry and expose its wall feature. -/
def getLevels (s : BTS) (level : ℚ) (geo : QGeom) : List RLevel × BTS :=
  let intersecting := s.levels.filter fun l =>
    decide (l.levelNumber = level) && l.intersectsQ geo
  if intersecting.isEmpty then
    let newLevel : RLevel := ⟨level, geo, [], true, s.nextWallId, []⟩
    ([newLevel],
      { s with levels := s.levels ++ [newLevel],
               resultWalls := s.resultWalls ++ [s.nextWallId],
               nextWallId := s.nextWallId + 1 })
  else (intersecting, s)

/-- One iteration of the level-number loop in
BuildingTopologySource.addFeature: fold all matched levels into the
first via mergeIn (the source reduce), drop the non-survivors from the
level list and their wall features from the result set, and attach the
feature to the survivor.  When only one level matches, the fold and
the removals are vacuous, exactly as in the source branch. -/
def addOneLevelNumber (s : BTS) (f : RFeature) (levelNumber : ℚ) : BTS :=
  let out := getLevels s levelNumber f.geom
  match out.1 with
  | [] => out.2
  | l0 :: rest =>
    let survivor := rest.foldl RLevel.mergeIn l0
    let attached := survivor.addFeature f
    let obsoleteIds := rest.map RLevel.wallId
    { out.2 with
      levels := (out.2.levels.filter fun l =>
          decide (l.wallId ∉ obsoleteIds)).map
        fun l => if l.wallId = l0.wallId then attached else l,
      resultWalls := out.2.resultWalls.filter fun w => decide (w ∉ obsoleteIds) }

/-- BuildingTopologySource.addFeature: route the feature to each of
its level numbers, then add it to the resultingFeatures source. -/
def addFeatureBTS (s : BTS) (f : RFeature) : BTS :=
  let s2 := (levelsOfFeature f.levelPairs).foldl
    (fun acc n => addOneLevelNumber acc f n) s
  { s2 with resultFeatures := s2.resultFeatures ++ [f.fid] }

/-- The wall correspondence invariant: the wall features exposed in
the resultingFeatures source are exactly the wall features of the
tracked levels, in order, without duplicates, and all their ids are
below the freshness counter. -/
def wallInv (s : BTS) : Prop :=
  s.resultWalls = s.levels.map RLevel.wallId ∧
  (s.levels.map RLevel.wallId).Nodup ∧
  ∀ i ∈ s.levels.map RLevel.wallId, i < s.nextWallId

instance (s : BTS) : Decidable (wallInv s) := by
  unfold wallInv
  infer_instance

/-- C9: a Level's accumulated region geometry only ever grows: after
addFeature the region spatially contains the region held before the
call (the region is unioned with the buffered feature geometry for
area features and untouched otherwise), and after mergeIn it contains
the region held before (union with the other region); nothing is ever
subtracted. -/
theorem C9_theorem (l other : RLevel) (f : RFeature) :
    qPointSet l.geometry ⊆ qPointSet (l.addFeature f).geometry ∧
    qPointSet l.geometry ⊆ qPointSet (l.mergeIn other).geometry := by
  constructor
  · intro p hp
    simp only [qPointSet, Set.mem_setOf_eq] at hp ⊢
    obtain ⟨r, hr, hpr⟩ := hp
    refine ⟨r, ?_, hpr⟩
    simp only [RLevel.addFeature]
    by_cases ha : f.isArea
    · simp only [ha, if_true, List.mem_append]
      exact Or.inl hr
    · simp only [ha, if_false]
      exact hr
  · intro p hp
    simp only [qPointSet, Set.mem_setOf_eq] at hp ⊢
    obtain ⟨r, hr, hpr⟩ := hp
    exact ⟨r, List.mem_append_left _ hr, hpr⟩

/-- The survivor of the source reduce over mergeIn keeps the identity
of the first matched level. -/
theorem foldl_mergeIn_wallId (rest : List RLevel) :
    ∀ l0 : RLevel, (rest.foldl RLevel.mergeIn l0).wallId = l0.wallId := by
  induction rest with
  | nil => intro l0; rfl
  | cons x xs ih => intro l0; exact ih (l0.mergeIn x)

/-- Filtering levels by exclusion of their wall id from a list
commutes with projecting the wall ids. -/
theorem map_wallId_filter (xs : List ℕ) (ls : List RLevel) :
    (ls.filter fun l => decide (l.wallId ∉ xs)).map RLevel.wallId =
      (ls.map RLevel.wallId).filter fun w => decide (w ∉ xs) := by
  induction ls with
  | nil => rfl
  | cons x rs ih =>
    by_cases hp : x.wallId ∉ xs
    · simp [List.filter_cons, hp]
      simpa using ih
    · simp [List.filter_cons, hp]
      simpa using ih

/-- getLevels preserves the wall correspondence invariant: either the
state is unchanged, or one fresh level and its wall feature are
appended together. -/
theorem getLevels_inv (s : BTS) (n : ℚ) (g : QGeom) (h : wallInv s) :
    wallInv (getLevels s n g).2 := by
  obtain ⟨h1, h2, h3⟩ := h
  simp only [getLevels]
  by_cases he : (s.levels.filter fun l =>
      decide (l.levelNumber = n) && l.intersectsQ g).isEmpty
  · simp only [he, if_true]
    refine ⟨?_, ?_, ?_⟩
    · simp only [List.map_append, List.map_cons, List.map_nil]
      rw [h1]
    · simp only [List.map_append, List.map_cons, List.map_nil]
      rw [List.nodup_append]
      refine ⟨h2, List.nodup_singleton _, ?_⟩
      intro a ha hb
      rw [List.mem_singleton] at hb
      subst hb
      exact absurd (h3 _ ha) (lt_irrefl _)
    · intro i hi
      simp only [List.map_append, List.map_cons, List.map_nil,
        List.mem_append, List.mem_singleton] at hi
      rcases hi with hi | hi
      · exact lt_trans (h3 i hi) (lt_add_one _)
      · subst hi
        exact lt_add_one _
  · simp only [he, if_false]
    exact ⟨h1, h2, h3⟩

/-- One iteration of the addFeature level-number loop preserves the
wall correspondence invariant: the replacement of the survivor keeps
its wall id, and dropping the non-survivors removes exactly their
wall features from the result set. -/
theorem addOne_inv (s : BTS) (f : RFeature) (n : ℚ) (h : wallInv s) :
    wallInv (addOneLevelNumber s f n) := by
  have hs2 := getLevels_inv s n f.geom h
  simp only [addOneLevelNumber]
  cases hm : (getLevels s n f.geom).1 with
  | nil => exact hs2
  | cons l0 rest =>
    obtain ⟨h1, h2, h3⟩ := hs2
    dsimp only
    have hrepl : ∀ ls : List RLevel,
        (ls.map fun l => if l.wallId = l0.wallId
            then (rest.foldl RLevel.mergeIn l0).addFeature f else l).map
          RLevel.wallId = ls.map RLevel.wallId := by
      intro ls
      rw [List.map_map]
      apply List.map_congr_left
      intro l _
      by_cases hid : l.wallId = l0.wallId
      · simp only [Function.comp_apply, hid, if_true]
        rw [show ((rest.foldl RLevel.mergeIn l0).addFeature f).wallId =
            (rest.foldl RLevel.mergeIn l0).wallId from rfl,
          foldl_mergeIn_wallId]
      · simp only [Function.comp_apply, hid, if_false]
    refine ⟨?_, ?_, ?_⟩
    · dsimp only
      rw [hrepl, map_wallId_filter, h1]
    · dsimp only
      rw [hrepl, map_wallId_filter]
      exact h2.filter _
    · intro i hi
      dsimp only at hi
      rw [hrepl, map_wallId_filter] at hi
      exact h3 i (List.mem_of_mem_filter hi)

/-- C10: BuildingTopologySource.addFeature preserves the one-to-one
correspondence between tracked Levels and synthesized wall features in
the output feature set: when several same-numbered Levels merge, every
non-surviving Level leaves the level list together with its wall
feature, and a freshly created Level arrives together with its wall
feature, so exactly one wall feature per tracked Level is exposed. -/
theorem C10_theorem (s : BTS) (f : RFeature) (h : wallInv s) :
    wallInv (addFeatureBTS s f) := by
  simp only [addFeatureBTS]
  have hf : ∀ (ns : List ℚ) (s0 : BTS), wallInv s0 →
      wallInv (ns.foldl (fun acc m => addOneLevelNumber acc f m) s0) := by
    intro ns
    induction ns with
    | nil => intro s0 h0; exact h0
    | cons m ms ih =>
      intro s0 h0
      exact ih _ (addOne_inv s0 f m h0)
  exact hf (levelsOfFeature f.levelPairs) s h

/-- C10 witness: the invariant-preservation theorem applied to a
concrete source holding two disjoint levels at number 0 (wall ids 0
and 1) and a bridging area feature at level 0 whose geometry touches
both regions, forcing the merge path. -/
theorem C10_witness :
    wallInv (addFeatureBTS
      ⟨[⟨0, [⟨0, 1, 0, 1⟩], [], true, 0, []⟩,
        ⟨0, [⟨2, 3, 0, 1⟩], [], true, 1, []⟩], [0, 1], [], 2⟩
      ⟨[(0, 0)], [⟨1, 2, 0, 1⟩], true, false, 7⟩) :=
  C10_theorem
    ⟨[⟨0, [⟨0, 1, 0, 1⟩], [], true, 0, []⟩,
      ⟨0, [⟨2, 3, 0, 1⟩], [], true, 1, []⟩], [0, 1], [], 2⟩
    ⟨[(0, 0)], [⟨1, 2, 0, 1⟩], true, false, 7⟩
    (by refine ⟨rfl, ?_, ?_⟩ <;> decide)

/-! ## Time-budgeted rebuild scheduling
(BuildingTopologySource.getFeaturesInExtent)

The pass iterates this.levels in list order.  For each level that
matches the active level number, whose region envelope intersects the
view extent, and that is dirty, it reads the wall clock; under the
100ms budget it rebuilds the wall synchronously, otherwise it breaks
out of the loop and schedules a delayed change notification after
500ms.  Wall-clock time is modelled by an oracle mapping the number of
completed rebuilds to the elapsed time observed at the next budget
check; the wall rebuild itself and the entrance-walkway generation are
the functions of the synthesis layer, taken as parameters here and
applied atomically (a rebuild either runs to completion or is not
started, as in the synchronous source). -/
def levelInView (active : ℚ) (extent : QRect) (l : RLevel) : Bool :=
  decide (l.levelNumber = active) &&
    (match qEnvOf l.geometry with
     | some e => extent.meets e
     | none => false)

/-- Level.generateEntranceWalkways effect on the level itself: the
generated walkway features (an external computation at this layer)
are pushed onto the member list and the pending entrance queue
empties; the dirty flag is untouched. -/
def handleEntrances (genWalk : RLevel → List RFeature) (l : RLevel) : RLevel :=
  { l with features := l.features ++ genWalk l, unhandledEntrances := [] }

/-- Full processing of one level reached within budget: rebuild when
in view and dirty, then generate entrance walkways when in view with
pending entrances. -/
def processLevel (active : ℚ) (extent : QRect) (rebuild : RLevel → RLevel)
    (genWalk : RLevel → List RFeature) (l : RLevel) : RLevel :=
  let inV := levelInView active extent l
  let l2 := if inV && l.wallRebuildRequired then rebuild l else l
  if inV && !l2.unhandledEntrances.isEmpty then handleEntrances genWalk l2 else l2

/-- The scheduling pass over the level list.  The natural number
argument counts completed rebuilds and indexes the elapsed-time
oracle; the second component of the result is the scheduled follow-up
delay (some 500 exactly when the pass aborted on budget). -/
def schedulerPass (active : ℚ) (extent : QRect) (elapsedAt : ℕ → ℕ)
    (rebuild : RLevel → RLevel) (genWalk : RLevel → List RFeature) :
    ℕ → List RLevel → List RLevel × Option ℕ
  | _, [] => ([], none)
  | n, l :: rest =>
    if levelInView active extent l && l.wallRebuildRequired then
      if elapsedAt n < 100 then
        let out := schedulerPass active extent elapsedAt rebuild genWalk (n + 1) rest
        (processLevel active extent rebuild genWalk l :: out.1, out.2)
      else
        (l :: rest, some 500)
    else
      let out := schedulerPass active extent elapsedAt rebuild genWalk n rest
      (processLevel active extent rebuild genWalk l :: out.1, out.2)

/-- Number of in-view dirty levels in a list: the budget checks a
pass performs while processing it. -/
def countDI (active : ℚ) (extent : QRect) (ls : List RLevel) : ℕ :=
  (ls.filter fun l => levelInView active extent l && l.wallRebuildRequired).length

/-- countDI ignores a level that is not in view or not dirty. -/
theorem countDI_cons_false {active : ℚ} {extent : QRect} {l : RLevel}
    (hv : (levelInView active extent l && l.wallRebuildRequired) = false)
    (ls : List RLevel) :
    countDI active extent (l :: ls) = countDI active extent ls := by
  simp [countDI, List.filter_cons, hv]

/-- countDI counts a level that is in view and dirty. -/
theorem countDI_cons_true {active : ℚ} {extent : QRect} {l : RLevel}
    (hv : (levelInView active extent l && l.wallRebuildRequired) = true)
    (ls : List RLevel) :
    countDI active extent (l :: ls) = countDI active extent ls + 1 := by
  simp [countDI, List.filter_cons, hv]

/-- Behaviour of one scheduling pass, for every rebuild-count offset:
there is a cut index k such that the levels before it are fully
processed in list order, the levels from it on are untouched, the
follow-up delay of 500 is scheduled exactly when the cut is proper, a
proper cut happens at an in-view dirty level whose budget check
failed, and every budget check before the cut passed. -/
theorem schedulerPass_spec (active : ℚ) (extent : QRect) (elapsedAt : ℕ → ℕ)
    (rebuild : RLevel → RLevel) (genWalk : RLevel → List RFeature) :
    ∀ (levels : List RLevel) (n : ℕ),
    ∃ k, k ≤ levels.length ∧
      (schedulerPass active extent elapsedAt rebuild genWalk n levels).1 =
        (levels.take k).map (processLevel active extent rebuild genWalk) ++
          levels.drop k ∧
      ((schedulerPass active extent elapsedAt rebuild genWalk n levels).2 =
          some 500 ↔ k < levels.length) ∧
      (k < levels.length →
        ∃ l rest2, levels.drop k = l :: rest2 ∧
          levelInView active extent l = true ∧
          l.wallRebuildRequired = true ∧
          ¬ elapsedAt (n + countDI active extent (levels.take k)) < 100) ∧
      (∀ (p q : List RLevel) (l : RLevel), levels.take k = p ++ l :: q →
        (levelInView active extent l && l.wallRebuildRequired) = true →
        elapsedAt (n + countDI active extent p) < 100) := by
  intro levels
  induction levels with
  | nil =>
    intro n
    refine ⟨0, le_refl _, rfl, by simp [schedulerPass], ?_, ?_⟩
    · intro h
      exact absurd h (lt_irrefl 0)
    · intro p q l hpq
      exact absurd hpq (by simp)
  | cons l rest ih =>
    intro n
    cases hv : levelInView active extent l && l.wallRebuildRequired with
    | false =>
      obtain ⟨k, hk, hout, hsched, habort, hbudget⟩ := ih n
      have hunf : schedulerPass active extent elapsedAt rebuild genWalk n (l :: rest) =
          (processLevel active extent rebuild genWalk l ::
            (schedulerPass active extent elapsedAt rebuild genWalk n rest).1,
           (schedulerPass active extent elapsedAt rebuild genWalk n rest).2) := by
        simp only [schedulerPass]
        rw [if_neg (by simp [hv])]
      refine ⟨k + 1, Nat.succ_le_succ hk, ?_, ?_, ?_, ?_⟩
      · rw [hunf]
        simp only [List.take_succ_cons, List.drop_succ_cons, List.map_cons,
          List.cons_append]
        rw [hout]
      · rw [hunf]
        simpa using hsched
      · intro h
        have h2 : k < rest.length := by
          simp only [List.length_cons] at h
          omega
        obtain ⟨l2, rest2, hdrop, hv2, hd2, hb2⟩ := habort h2
        refine ⟨l2, rest2, by simpa using hdrop, hv2, hd2, ?_⟩
        rw [List.take_succ_cons, countDI_cons_false hv]
        exact hb2
      · intro p q l2 hpq hl2
        rw [List.take_succ_cons] at hpq
        cases p with
        | nil =>
          simp only [List.nil_append, List.cons.injEq] at hpq
          rw [← hpq.1] at hl2
          rw [hl2] at hv
          exact absurd hv (by simp)
        | cons x p2 =>
          simp only [List.cons_append, List.cons.injEq] at hpq
          obtain ⟨hx, hrest⟩ := hpq
          subst hx
          rw [countDI_cons_false hv]
          exact hbudget p2 q l2 hrest hl2
    | true =>
      by_cases ht : elapsedAt n < 100
      · obtain ⟨k, hk, hout, hsched, habort, hbudget⟩ := ih (n + 1)
        have hunf : schedulerPass active extent elapsedAt rebuild genWalk n (l :: rest) =
            (processLevel active extent rebuild genWalk l ::
              (schedulerPass active extent elapsedAt rebuild genWalk (n + 1) rest).1,
             (schedulerPass active extent elapsedAt rebuild genWalk (n + 1) rest).2) := by
          simp only [schedulerPass]
          rw [if_pos hv, if_pos ht]
        refine ⟨k + 1, Nat.succ_le_succ hk, ?_, ?_, ?_, ?_⟩
        · rw [hunf]
          simp only [List.take_succ_cons, List.drop_succ_cons, List.map_cons,
            List.cons_append]
          rw [hout]
        · rw [hunf]
          simpa using hsched
        · intro h
          have h2 : k < rest.length := by
            simp only [List.length_cons] at h
            omega
          obtain ⟨l2, rest2, hdrop, hv2, hd2, hb2⟩ := habort h2
          refine ⟨l2, rest2, by simpa using hdrop, hv2, hd2, ?_⟩
          rw [List.take_succ_cons, countDI_cons_true hv]
          have harith : n + (countDI active extent (rest.take k) + 1) =
              n + 1 + countDI active extent (rest.take k) := by omega
          rw [harith]
          exact hb2
        · intro p q l2 hpq hl2
          rw [List.take_succ_cons] at hpq
          cases p with
          | nil =>
            simp only [List.nil_append, List.cons.injEq] at hpq
            simpa using ht
          | cons x p2 =>
            simp only [List.cons_append, List.cons.injEq] at hpq
            obtain ⟨hx, hrest⟩ := hpq
            subst hx
            rw [countDI_cons_true hv]
            have harith : n + (countDI active extent p2 + 1) =
                n + 1 + countDI active extent p2 := by omega
            rw [harith]
            exact hbudget p2 q l2 hrest hl2
      · have hunf : schedulerPass active extent elapsedAt rebuild genWalk n (l :: rest) =
            (l :: rest, some 500) := by
          simp only [schedulerPass]
          rw [if_pos hv, if_neg ht]
        refine ⟨0, Nat.zero_le _, by rw [hunf]; rfl, ?_, ?_, ?_⟩
        · rw [hunf]
          exact iff_of_true rfl (Nat.succ_pos _)
        · intro _
          rw [Bool.and_eq_true] at hv
          refine ⟨l, rest, rfl, hv.1, hv.2, ?_⟩
          simpa [countDI] using ht
        · intro p q l2 hpq
          exact absurd hpq (by simp)

/-- C8: during one scheduling pass, the dirty Levels matching the
active level number and view extent are rebuilt in stable list order
while the observed elapsed time stays under the 100ms budget; once
the budget check fails the pass aborts at a Level boundary (the levels
from the cut index on are returned untouched, so every not-yet-rebuilt
Level keeps its dirty flag) and a follow-up pass is scheduled after
the fixed 500ms delay, exactly when the cut is proper. -/
theorem C8_theorem (active : ℚ) (extent : QRect) (elapsedAt : ℕ → ℕ)
    (rebuild : RLevel → RLevel) (genWalk : RLevel → List RFeature)
    (levels : List RLevel) :
    ∃ k, k ≤ levels.length ∧
      (schedulerPass active extent elapsedAt rebuild genWalk 0 levels).1 =
        (levels.take k).map (processLevel active extent rebuild genWalk) ++
          levels.drop k ∧
      ((schedulerPass active extent elapsedAt rebuild genWalk 0 levels).2 =
          some 500 ↔ k < levels.length) ∧
      (k < levels.length →
        ∃ l rest2, levels.drop k = l :: rest2 ∧
          levelInView active extent l = true ∧
          l.wallRebuildRequired = true ∧
          ¬ elapsedAt (countDI active extent (levels.take k)) < 100) ∧
      (∀ (p q : List RLevel) (l : RLevel), levels.take k = p ++ l :: q →
        (levelInView active extent l && l.wallRebuildRequired) = true →
        elapsedAt (countDI active extent p) < 100) := by
  obtain ⟨k, hk, hout, hsched, habort, hbudget⟩ :=
    schedulerPass_spec active extent elapsedAt rebuild genWalk levels 0
  refine ⟨k, hk, hout, hsched, ?_, ?_⟩
  · intro h
    obtain ⟨l, rest2, hdrop, hv2, hd2, hb2⟩ := habort h
    exact ⟨l, rest2, hdrop, hv2, hd2, by simpa using hb2⟩
  · intro p q l hpq hl
    have := hbudget p q l hpq hl
    simpa using this

/-- Concrete two-level scene for the C8 witness. -/
def c8levels : List RLevel :=
  [⟨0, [⟨1, 2, 1, 2⟩], [], true, 0, []⟩,
   ⟨0, [⟨3, 4, 1, 2⟩], [], true, 1, []⟩]

/-- Concrete view extent for the C8 witness. -/
def c8extent : QRect := ⟨0, 10, 0, 10⟩

/-- Concrete wall rebuild for the C8 witness: clears the dirty flag. -/
def c8rebuild (l : RLevel) : RLevel := { l with wallRebuildRequired := false }

/-- Concrete elapsed-time oracle for the C8 witness: each rebuild
takes 60ms. -/
def c8elapsed (n : ℕ) : ℕ := 60 * n

/-- Concrete walkway generator for the C8 witness. -/
def c8genWalk (_ : RLevel) : List RFeature := []

/-- C8 witness: the scheduling theorem evaluated on a concrete scene
with two dirty in-view levels and 60ms rebuilds under the 100ms
budget. -/
theorem C8_witness :
    ∃ k, k ≤ c8levels.length ∧
      (schedulerPass 0 c8extent c8elapsed c8rebuild c8genWalk 0 c8levels).1 =
        (c8levels.take k).map (processLevel 0 c8extent c8rebuild c8genWalk) ++
          c8levels.drop k ∧
      ((schedulerPass 0 c8extent c8elapsed c8rebuild c8genWalk 0 c8levels).2 =
          some 500 ↔ k < c8levels.length) ∧
      (k < c8levels.length →
        ∃ l rest2, c8levels.drop k = l :: rest2 ∧
          levelInView 0 c8extent l = true ∧
          l.wallRebuildRequired = true ∧
          ¬ c8elapsed (countDI 0 c8extent (c8levels.take k)) < 100) ∧
      (∀ (p q : List RLevel) (l : RLevel), c8levels.take k = p ++ l :: q →
        (levelInView 0 c8extent l && l.wallRebuildRequired) = true →
        c8elapsed (countDI 0 c8extent p) < 100) :=
  C8_theorem 0 c8extent c8elapsed c8rebuild c8genWalk c8levels

/-! ## Wall synthesis (Level.rebuildWall)

The synthesis pipeline is metric, so geometries are point sets of the
rational plane.  Kernel operations: union, intersection and
difference are the set operations; a buffer with square or flat caps
and mitre joins is the Chebyshev-distance (coordinate-wise) Minkowski
dilation, which agrees with the jts mitre-join buffer on axis-aligned
geometry; a negative such buffer is the corresponding erosion; the
default round buffer is the Euclidean-disc dilation.  A polygon is a
list of components, each carrying its interior region, its boundary
ring carrier (the LineString over its ring coordinates) and its
area measure (used only for the processing order). -/
abbrev Pt := ℚ × ℚ

/-- Chebyshev dilation: all points within coordinate-wise distance r
of the set. -/
def dilateInf (r : ℚ) (s : Set Pt) : Set Pt :=
  { p | ∃ q ∈ s, |p.1 - q.1| ≤ r ∧ |p.2 - q.2| ≤ r }

/-- Chebyshev erosion: all points whose coordinate-wise
r-neighbourhood lies inside the set. -/
def erodeInf (r : ℚ) (s : Set Pt) : Set Pt :=
  { p | ∀ q : Pt, |q.1 - p.1| ≤ r ∧ |q.2 - p.2| ≤ r → q ∈ s }

/-- jts BufferOp with square or flat caps and mitre joins: dilation
for a non-negative distance, erosion for a negative one. -/
def bufferMitre (d : ℚ) (s : Set Pt) : Set Pt :=
  if 0 ≤ d then dilateInf d s else erodeInf (-d) s

/-- jts BufferOp with default (round) parameters on point and line
inputs: the Euclidean-disc dilation, empty for a negative distance
(door geometries in the claims are points and lines; a polygonal door
with width below 1 is outside the modelled scope). -/
def bufferRound (d : ℚ) (s : Set Pt) : Set Pt :=
  { p | 0 ≤ d ∧ ∃ q ∈ s, (p.1 - q.1) ^ 2 + (p.2 - q.2) ^ 2 ≤ d ^ 2 }

/-- One polygon component: interior region, boundary ring carrier,
and area measure. -/
structure PolyComp where
  region : Set Pt
  ring : Set Pt
  area : ℚ

/-- Geometry kinds the synthesis code discriminates by instanceof. -/
inductive WGeom
  | point (p : Pt)
  | line (carrier : Set Pt)
  | multiline (carrier : Set Pt)
  | poly (comps : List PolyComp)

/-- The indoor tag values the synthesis code tests for. -/
inductive IndoorTag
  | room
  | wall
  | area
  | corridor
  | levelOutline
deriving DecidableEq, Repr

/-- A member feature of a Level as rebuildWall reads it: the indoor
tag, whether the door-selection disjunction holds (a door tag, an
indoor door tag, or an entrance tag), the parsed width tag, and the
geometry. -/
structure WFeature where
  indoor : Option IndoorTag
  doorish : Bool
  width : Option ℚ
  geom : WGeom

/-- The innerWallWidth constant of rebuildWall. -/
def innerWallWidth : ℚ := 1/5

/-- The point carrier of a geometry. -/
def carrierOf : WGeom → Set Pt
  | WGeom.point p => {p}
  | WGeom.line c => c
  | WGeom.multiline c => c
  | WGeom.poly comps => { x | ∃ c ∈ comps, x ∈ c.region }

/-- getWallSourceAreas: the polygon components of all members tagged
indoor room (Polygon and MultiPolygon geometries only). -/
def roomComps (fs : List WFeature) : List PolyComp :=
  (fs.filter fun f => decide (f.indoor = some IndoorTag.room)).flatMap fun f =>
    match f.geom with
    | WGeom.poly comps => comps
    | _ => []

/-- The union of the walled room regions. -/
def roomsRegion (fs : List WFeature) : Set Pt :=
  { x | ∃ c ∈ roomComps fs, x ∈ c.region }

/-- The raw wall centerline skeleton: the boundary rings of the room
components plus the LineString geometries of members tagged indoor
wall (only LineString walls join the skeleton, as in the source). -/
def wallLinesSet (fs : List WFeature) : Set Pt :=
  { x | (∃ c ∈ roomComps fs, x ∈ c.ring) ∨
        (∃ f ∈ fs, f.indoor = some IndoorTag.wall ∧
          ∃ s, f.geom = WGeom.line s ∧ x ∈ s) }

/-- Door disc radius: doorWidth / 2 - 0.5 with the width tag
defaulting to 1.2. -/
def doorRadius (f : WFeature) : ℚ :=
  (match f.width with
   | some w => w
   | none => 6/5) / 2 - 1/2

/-- The union of all door discs: every member selected by the door
disjunction contributes its geometry buffered by its door radius. -/
def doorCircles (fs : List WFeature) : Set Pt :=
  { x | ∃ f ∈ fs, f.doorish = true ∧
        x ∈ bufferRound (doorRadius f) (carrierOf f.geom) }

/-- The door cut region: the skeleton segments inside some door disc,
buffered by 0.5 with square caps and mitre joins. -/
def doorBuffers (fs : List WFeature) : Set Pt :=
  bufferMitre (1/2) (wallLinesSet fs ∩ doorCircles fs)

/-- Union in the optional whole-floor outline (the first member
tagged indoor level). -/
def withFloor (fs : List WFeature) (base : Set Pt) : Set Pt :=
  match fs.find? fun f => decide (f.indoor = some IndoorTag.levelOutline) with
  | some f => base ∪ carrierOf f.geom
  | none => base

/-- One entry of the walkable-area processing list. -/
structure Walkable where
  walled : Bool
  region : Set Pt
  area : ℚ

/-- Whether a geometry is a Polygon or MultiPolygon. -/
def isPolyB : WGeom → Bool
  | WGeom.poly _ => true
  | _ => false

/-- The area of a geometry (getArea). -/
def areaOf : WGeom → ℚ
  | WGeom.poly comps => (comps.map PolyComp.area).sum
  | _ => 0

/-- The walkable-area list: the walled room components, then the
polygon geometries of members tagged indoor area or corridor as
unwalled entries. -/
def walkables (fs : List WFeature) : List Walkable :=
  (roomComps fs).map (fun c => ⟨true, c.region, c.area⟩) ++
    ((fs.filter fun f =>
        decide (f.indoor = some IndoorTag.area ∨
          f.indoor = some IndoorTag.corridor) && isPolyB f.geom).map
      fun f => ⟨false, carrierOf f.geom, areaOf f.geom⟩)

/-- Stable insertion into a descending-by-area list: an element moves
before the first strictly smaller area, keeping the original order of
equal areas (the stable JS sort with comparator b.area - a.area). -/
def insertDesc (w : Walkable) : List Walkable → List Walkable
  | [] => [w]
  | x :: xs => if x.area < w.area then w :: x :: xs else x :: insertDesc w xs

/-- Stable sort of the walkable list, larger areas first. -/
def sortByAreaDesc : List Walkable → List Walkable
  | [] => []
  | x :: xs => insertDesc x (sortByAreaDesc xs)

/-- One iteration of the inner-wall simulation: for a walled area not
already contained in the working polygon, union in its ring buffered
by innerWallWidth / 2; then subtract the area eroded by
innerWallWidth / 2.  The containment test models RelateOp.contains as
set containment. -/
def wallStep (base : Set Pt) (w : Walkable) : Set Pt :=
  { x | x ∈ base ∨
        (w.walled = true ∧ ¬ w.region ⊆ base ∧
          x ∈ bufferMitre (innerWallWidth / 2) w.region) } \
    bufferMitre (-(innerWallWidth / 2)) w.region

/-- Union in the explicitly drawn walls: wall polygons verbatim, wall
lines buffered by innerWallWidth / 2 with square caps. -/
def wallAddStep (base : Set Pt) (f : WFeature) : Set Pt :=
  match f.geom with
  | WGeom.poly comps => base ∪ { x | ∃ c ∈ comps, x ∈ c.region }
  | WGeom.line c => base ∪ bufferMitre (innerWallWidth / 2) c
  | WGeom.multiline c => base ∪ bufferMitre (innerWallWidth / 2) c
  | WGeom.point _ => base

/-- The full wall-synthesis pipeline of rebuildWall: buffer the room
union outward by outerWallWidth - innerWallWidth / 2, union in the
floor outline, process the walkable areas largest first, union in the
explicit walls, and finally subtract the door cut region. -/
def computeWall (fs : List WFeature) : Set Pt :=
  ((sortByAreaDesc (walkables fs)).foldl wallStep
      (withFloor fs
        (bufferMitre (outerWallWidth - innerWallWidth / 2) (roomsRegion fs)))
    |> (fs.filter fun f => decide (f.indoor = some IndoorTag.wall)).foldl
        wallAddStep) \
    doorBuffers fs

/-- cutWallFromAreas on one feature: polygon geometries lose the wall
area from every component region (the kernel recomputation of the
clipped boundary ring is not modelled; no claim reads rings after
clipping). -/
def clipFeature (wallArea : Set Pt) (f : WFeature) : WFeature :=
  match f.geom with
  | WGeom.poly comps =>
    { f with
      geom :=
        WGeom.poly (comps.map fun c => { c with region := c.region \ wallArea }) }
  | _ => f

/-- Level state as rebuildWall touches it: members, the dirty flag,
and the synthesized wall polygon. -/
structure LevelW where
  features : List WFeature
  wallRebuildRequired : Bool
  wall : Set Pt

/-- Level.rebuildWall: return immediately unless the rebuild flag is
set; otherwise synthesize the wall polygon from the members, clear
the flag, and clip every polygon member by the new wall area. -/
def rebuildWall (lv : LevelW) : LevelW :=
  if lv.wallRebuildRequired then
    { features := lv.features.map (clipFeature (computeWall lv.features)),
      wallRebuildRequired := false,
      wall := computeWall lv.features }
  else lv

/-- C5: calling rebuildWall twice in a row with no feature added and
no merge in between produces identical output: the guard on the
rebuild flag, cleared at the end of a completed rebuild, makes the
second call a no-op, so the wall polygon and the clipped member
geometries stay exactly as the first call left them. -/
theorem C5_theorem (lv : LevelW) :
    rebuildWall (rebuildWall lv) = rebuildWall lv := by
  cases h : lv.wallRebuildRequired with
  | false => simp [rebuildWall, h]
  | true => simp [rebuildWall, h]

/-! ## The door-cutting scenario for C3

A rectangular room [0,10] x [0,6] and a door of width tag 1.2 sitting
at (5,0), exactly on the bottom wall line. -/
def roomRegion : Set Pt :=
  { p | 0 ≤ p.1 ∧ p.1 ≤ 10 ∧ 0 ≤ p.2 ∧ p.2 ≤ 6 }

/-- The boundary ring of the room rectangle. -/
def roomRing : Set Pt :=
  { p | ((p.2 = 0 ∨ p.2 = 6) ∧ 0 ≤ p.1 ∧ p.1 ≤ 10) ∨
        ((p.1 = 0 ∨ p.1 = 10) ∧ 0 ≤ p.2 ∧ p.2 ≤ 6) }

/-- The room feature: indoor room, area 60. -/
def roomFeat : WFeature :=
  ⟨some IndoorTag.room, false, none, WGeom.poly [⟨roomRegion, roomRing, 60⟩]⟩

/-- The door feature: a door point at (5, 0) with width tag 1.2. -/
def doorFeat : WFeature :=
  ⟨none, true, some (6/5), WGeom.point (5, 0)⟩

/-- The member list of the scenario Level. -/
def c3fs : List WFeature := [roomFeat, doorFeat]

/-- The room union of the scenario is the room rectangle. -/
theorem c3_roomsRegion : roomsRegion c3fs = roomRegion := by
  have h : roomComps c3fs = [⟨roomRegion, roomRing, 60⟩] := rfl
  ext p
  rw [roomsRegion, h]
  simp

/-- The scenario skeleton is the room ring. -/
theorem c3_wallLines : wallLinesSet c3fs = roomRing := by
  have h : roomComps c3fs = [⟨roomRegion, roomRing, 60⟩] := rfl
  ext p
  rw [wallLinesSet]
  simp only [Set.mem_setOf_eq, h, List.mem_singleton]
  constructor
  · rintro (⟨c, hc, hp⟩ | ⟨f, hf, hw, s, hs, hp⟩)
    · subst hc
      exact hp
    · simp only [c3fs, List.mem_cons, List.not_mem_nil, or_false] at hf
      rcases hf with hf | hf
      · subst hf
        cases hw
      · subst hf
        cases hw
  · intro hp
    exact Or.inl ⟨⟨roomRegion, roomRing, 60⟩, rfl, hp⟩

/-- The scenario door-disc union is the 0.1-radius disc at (5, 0). -/
theorem c3_doorCircles :
    doorCircles c3fs = bufferRound (1/10) {((5 : ℚ), (0 : ℚ))} := by
  ext p
  rw [doorCircles]
  simp only [Set.mem_setOf_eq]
  constructor
  · rintro ⟨f, hf, hd, hp⟩
    simp only [c3fs, List.mem_cons, List.not_mem_nil, or_false] at hf
    rcases hf with hf | hf
    · subst hf
      cases hd
    · subst hf
      have : doorRadius doorFeat = 1/10 := by
        rw [doorRadius]
        norm_num [doorFeat]
      rw [this] at hp
      exact hp
  · intro hp
    refine ⟨doorFeat, by simp [c3fs], rfl, ?_⟩
    have : doorRadius doorFeat = 1/10 := by
      rw [doorRadius]
      norm_num [doorFeat]
    rw [this]
    exact hp

/-- The room rectangle lies inside its own 0.3 dilation. -/
theorem c3_room_sub : roomRegion ⊆ dilateInf (3/10) roomRegion := by
  intro p hp
  exact ⟨p, hp, by norm_num, by norm_num⟩

/-- No point of the former bottom wall line survives the room
erosion. -/
theorem c3_not_erode (x : ℚ) : (x, 0) ∉ erodeInf (1/10) roomRegion := by
  intro h
  have h2 := h (x, -(1/10)) (by constructor <;> norm_num [abs_le])
  rw [roomRegion, Set.mem_setOf_eq] at h2
  norm_num at h2

/-- Membership of the bottom wall line in the dilated room. -/
theorem c3_base_mem (x : ℚ) :
    (x, 0) ∈ dilateInf (3/10) roomRegion ↔ -(3/10) ≤ x ∧ x ≤ 103/10 := by
  constructor
  · rintro ⟨q, hq, h1, h2⟩
    rw [roomRegion, Set.mem_setOf_eq] at hq
    rw [abs_le] at h1
    constructor <;> [skip; skip] <;> dsimp at h1 <;> linarith [hq.1, hq.2.1, h1.1, h1.2]
  · rintro ⟨hl, hr⟩
    refine ⟨(min 10 (max 0 x), 0), ?_, ?_, by norm_num⟩
    · rw [roomRegion, Set.mem_setOf_eq]
      refine ⟨le_min (by norm_num) (le_max_left 0 x), min_le_left _ _, le_refl 0, by norm_num⟩
    · dsimp only
      rw [abs_le]
      rcases le_total x 0 with hx | hx
      · rw [max_eq_left hx, min_eq_right (by norm_num : (0:ℚ) ≤ 10)]
        constructor <;> linarith
      · rw [max_eq_right hx]
        rcases le_total x 10 with hx10 | hx10
        · rw [min_eq_right hx10]
          constructor <;> linarith
        · rw [min_eq_left hx10]
          constructor <;> linarith

/-- The skeleton segment inside the door disc is the chord of the
bottom wall line under the door. -/
theorem c3_ring_inter :
    roomRing ∩ bufferRound (1/10) {((5 : ℚ), (0 : ℚ))} =
      { p : Pt | p.2 = 0 ∧ |p.1 - 5| ≤ 1/10 } := by
  ext p
  simp only [Set.mem_inter_iff, Set.mem_setOf_eq, bufferRound, roomRing,
    Set.mem_singleton_iff]
  constructor
  · rintro ⟨hring, -, q, hq, hdisc⟩
    subst hq
    dsimp only at hdisc
    rcases hring with ⟨hy, hx1, hx2⟩ | ⟨hx, hy1, hy2⟩
    · rcases hy with hy | hy
      · refine ⟨hy, ?_⟩
        rw [hy] at hdisc
        rw [abs_le]
        constructor <;> nlinarith [hdisc]
      · exfalso
        rw [hy] at hdisc
        nlinarith [hdisc]
    · exfalso
      rcases hx with hx | hx
      · rw [hx] at hdisc
        nlinarith [hdisc]
      · rw [hx] at hdisc
        nlinarith [hdisc]
  · rintro ⟨hy, habs⟩
    rw [abs_le] at habs
    refine ⟨Or.inl ⟨Or.inl hy, by linarith [habs.1], by linarith [habs.2]⟩,
      by norm_num, (5, 0), rfl, ?_⟩
    dsimp only
    rw [hy]
    nlinarith [habs.1, habs.2]

/-- Membership of the bottom wall line in the door cut: the chord
buffered by 0.5 clears exactly 1.2 units, from 4.4 to 5.6. -/
theorem c3_doorbuf_mem (x : ℚ) :
    (x, 0) ∈ dilateInf (1/2) { p : Pt | p.2 = 0 ∧ |p.1 - 5| ≤ 1/10 } ↔
      22/5 ≤ x ∧ x ≤ 28/5 := by
  constructor
  · rintro ⟨q, ⟨hq2, hq1⟩, h1, h2⟩
    rw [abs_le] at hq1 h1
    dsimp only at h1
    constructor <;> linarith [hq1.1, hq1.2, h1.1, h1.2]
  · rintro ⟨hl, hr⟩
    refine ⟨(min (51/10) (max (49/10) x), 0), ⟨rfl, ?_⟩, ?_, by norm_num⟩
    · rw [abs_le]
      constructor
      · refine le_sub_iff_add_le.2 ?_
        exact le_min (by norm_num) (le_trans (by norm_num) (le_max_left _ _))
      · refine sub_le_iff_le_add.2 (le_trans (min_le_left _ _) (by norm_num))
    · dsimp only
      rw [abs_le]
      rcases le_total x (49/10) with hx | hx
      · rw [max_eq_left hx, min_eq_right (by norm_num : (49/10 : ℚ) ≤ 51/10)]
        constructor <;> linarith
      · rw [max_eq_right hx]
        rcases le_total x (51/10) with hx2 | hx2
        · rw [min_eq_right hx2]
          constructor <;> linarith
        · rw [min_eq_left hx2]
          constructor <;> linarith

/-- C3: first part, at the concrete scenario: along the former bottom
wall centerline y = 0 the synthesized wall polygon spans exactly the
dilated room interval [-0.3, 10.3] with the door gap [4.4, 5.6]
removed, a gap of width 28/5 - 22/5 = 6/5 = 1.2, the door width.
Second part, in general: a door or entrance feature carrying no other
role whose door disc intersects no wall centerline leaves the wall
polygon unchanged. -/
theorem C3_theorem :
    (∀ x : ℚ, ((x, 0) ∈ computeWall c3fs ↔
      (-(3/10) ≤ x ∧ x ≤ 103/10 ∧ ¬(22/5 ≤ x ∧ x ≤ 28/5)))) ∧
    (∀ (fs : List WFeature) (d : WFeature), d.indoor = none →
      bufferRound (doorRadius d) (carrierOf d.geom) ∩ wallLinesSet fs = ∅ →
      computeWall (d :: fs) = computeWall fs) := by
  constructor
  · intro x
    have hred : computeWall c3fs =
        wallStep (withFloor c3fs (bufferMitre (outerWallWidth - innerWallWidth / 2)
            (roomsRegion c3fs)))
          ⟨true, roomRegion, 60⟩ \ doorBuffers c3fs := rfl
    have hwfl : withFloor c3fs (bufferMitre (outerWallWidth - innerWallWidth / 2)
        (roomsRegion c3fs)) = dilateInf (3/10) roomRegion := by
      have h0 : outerWallWidth - innerWallWidth / 2 = (3/10 : ℚ) := by
        norm_num [outerWallWidth, innerWallWidth]
      have h1 : withFloor c3fs (bufferMitre (outerWallWidth - innerWallWidth / 2)
          (roomsRegion c3fs)) = bufferMitre (outerWallWidth - innerWallWidth / 2)
          (roomsRegion c3fs) := rfl
      rw [h1, c3_roomsRegion, h0, bufferMitre, if_pos (by norm_num)]
    have herode : bufferMitre (-(innerWallWidth / 2)) roomRegion =
        erodeInf (1/10) roomRegion := by
      have h1 : -(innerWallWidth / 2) = (-(1/10) : ℚ) := by norm_num [innerWallWidth]
      rw [bufferMitre, h1, if_neg (by norm_num)]
      norm_num
    have hdoorb : doorBuffers c3fs =
        dilateInf (1/2) { p : Pt | p.2 = 0 ∧ |p.1 - 5| ≤ 1/10 } := by
      rw [doorBuffers, c3_wallLines, c3_doorCircles, c3_ring_inter, bufferMitre,
        if_pos (by norm_num)]
    rw [hred, Set.mem_diff, hdoorb]
    simp only [wallStep, Set.mem_diff, Set.mem_setOf_eq, hwfl, herode]
    constructor
    · rintro ⟨⟨hin | ⟨-, hnsub, -⟩, _hner⟩, hnd⟩
      · have hb := (c3_base_mem x).1 hin
        exact ⟨hb.1, hb.2, fun hgap => hnd ((c3_doorbuf_mem x).2 hgap)⟩
      · exact absurd c3_room_sub hnsub
    · rintro ⟨h1, h2, h3⟩
      exact ⟨⟨Or.inl ((c3_base_mem x).2 ⟨h1, h2⟩), c3_not_erode x⟩,
        fun hd => h3 ((c3_doorbuf_mem x).1 hd)⟩
  · intro fs d hind hdisj
    have hrc : roomComps (d :: fs) = roomComps fs := by
      rw [roomComps, roomComps, List.filter_cons]
      simp [hind]
    have hrr : roomsRegion (d :: fs) = roomsRegion fs := by
      rw [roomsRegion, roomsRegion, hrc]
    have hwl : wallLinesSet (d :: fs) = wallLinesSet fs := by
      ext p
      rw [wallLinesSet, wallLinesSet, hrc]
      simp only [Set.mem_setOf_eq, List.mem_cons]
      constructor
      · rintro (h | ⟨f, hf | hf, hw, hs⟩)
        · exact Or.inl h
        · subst hf
          rw [hind] at hw
          cases hw
        · exact Or.inr ⟨f, hf, hw, hs⟩
      · rintro (h | ⟨f, hf, hw, hs⟩)
        · exact Or.inl h
        · exact Or.inr ⟨f, Or.inr hf, hw, hs⟩
    have hwk : walkables (d :: fs) = walkables fs := by
      rw [walkables, walkables, hrc, List.filter_cons]
      simp [hind]
    have hwf : ∀ b, withFloor (d :: fs) b = withFloor fs b := by
      intro b
      rw [withFloor, withFloor, List.find?_cons]
      simp [hind]
    have hew : ((d :: fs).filter fun f => decide (f.indoor = some IndoorTag.wall)) =
        fs.filter fun f => decide (f.indoor = some IndoorTag.wall) := by
      rw [List.filter_cons]
      simp [hind]
    have hdc : wallLinesSet fs ∩ doorCircles (d :: fs) =
        wallLinesSet fs ∩ doorCircles fs := by
      ext p
      simp only [Set.mem_inter_iff, doorCircles, Set.mem_setOf_eq, List.mem_cons]
      constructor
      · rintro ⟨hw, f, hf | hf, hd, hp⟩
        · subst hf
          exact absurd (Set.mem_inter hp hw) (by rw [hdisj]; exact Set.not_mem_empty p)
        · exact ⟨hw, f, hf, hd, hp⟩
      · rintro ⟨hw, f, hf, hd, hp⟩
        exact ⟨hw, f, Or.inr hf, hd, hp⟩
    rw [computeWall, computeWall, hwk, hrr, hwf, hew, doorBuffers, doorBuffers,
      hwl, hdc]

/-- A door point far from every wall, for the C3 witness. -/
def door100 : WFeature :=
  ⟨none, true, some (6/5), WGeom.point (100, 100)⟩

/-- The disc of the far door misses the skeleton of the single-room
Level. -/
theorem door100_disjoint :
    bufferRound (doorRadius door100) (carrierOf door100.geom) ∩
      wallLinesSet [roomFeat] = ∅ := by
  rw [Set.eq_empty_iff_forall_not_mem]
  rintro p ⟨⟨-, q, hq, hdisc⟩, hring⟩
  have hq5 : q = ((100 : ℚ), (100 : ℚ)) := hq
  subst hq5
  have hrad : doorRadius door100 = 1/10 := by
    rw [doorRadius]
    norm_num [door100]
  rw [hrad] at hdisc
  dsimp only at hdisc
  have hy6 : p.2 ≤ 6 := by
    rw [wallLinesSet, Set.mem_setOf_eq] at hring
    rcases hring with ⟨c, hc, hp⟩ | ⟨f, hf, hw, hs⟩
    · have hcomp : roomComps [roomFeat] = [⟨roomRegion, roomRing, 60⟩] := rfl
      rw [hcomp, List.mem_singleton] at hc
      subst hc
      rw [roomRing, Set.mem_setOf_eq] at hp
      rcases hp with ⟨hy, -, -⟩ | ⟨-, -, hy⟩
      · rcases hy with hy | hy
        · rw [hy]
          norm_num
        · rw [hy]
      · exact hy
    · rw [List.mem_singleton] at hf
      subst hf
      cases hw
  have h94 : p.2 - 100 ≤ -94 := by linarith
  nlinarith [sq_nonneg (p.1 - 100), h94, hdisc]

/-- C3 witness: the general part of the theorem evaluated at the far
door and the single-room Level, with both hypotheses discharged
concretely. -/
theorem C3_witness :
    door100.indoor = none ∧
    (bufferRound (doorRadius door100) (carrierOf door100.geom) ∩
      wallLinesSet [roomFeat] = ∅) ∧
    computeWall (door100 :: [roomFeat]) = computeWall [roomFeat] :=
  ⟨rfl, door100_disjoint, C3_theorem.2 [roomFeat] door100 rfl door100_disjoint⟩

/-! ## Entrance walkways (Level.generateEntranceWalkways)

The kernel computations (closest point on the walled area, the
intersection of the 0.5 disc with the first boundary ring, the
containsXY test) are external inputs here: the claims condition on
their outputs.  p1 and p2 are the first and last crossing points of
the disc with the ring, containsB is walledArea.containsXY.  The
trigonometry runs over the reals. -/
abbrev RPt := ℝ × ℝ

/-- Math.atan2 of the JS source: the argument of the complex number
x + i y.  The trigonometric functions of the reals have no executable
code in Lean, so the definitions of this section are noncomputable;
the witnesses evaluate them by explicit rewriting instead. -/
noncomputable def atan2 (y x : ℝ) : ℝ := Complex.arg ⟨x, y⟩

/-- The chord angle Math.atan2(p2.y - p1.y, p2.x - p1.x). -/
noncomputable def chordAngle (p1 p2 : RPt) : ℝ := atan2 (p2.2 - p1.2) (p2.1 - p1.1)

/-- The walkwayCenter: the midpoint of the chord. -/
noncomputable def chordMid (p1 p2 : RPt) : RPt :=
  ((p1.1 + p2.1) / 2, (p1.2 + p2.2) / 2)

/-- The initial walkwayOutside point: walkwayLength = 1 along the
perpendicular of the chord from the midpoint. -/
noncomputable def perpPoint (p1 p2 : RPt) : RPt :=
  ((chordMid p1 p2).1 + 1 * Real.cos (chordAngle p1 p2 + Real.pi / 2),
   (chordMid p1 p2).2 + 1 * Real.sin (chordAngle p1 p2 + Real.pi / 2))

/-- The emitted walkway LineString [walkwayOutside, walkwayCenter]:
when the initial outside point lands inside the room, the source
reassigns walkwayOutside to walkwayCenter + 2 * (walkwayCenter -
walkwayOutside). -/
noncomputable def walkwaySegment (p1 p2 : RPt) (containsB : RPt → Bool) : RPt × RPt :=
  if containsB (perpPoint p1 p2) then
    (((chordMid p1 p2).1 + 2 * ((chordMid p1 p2).1 - (perpPoint p1 p2).1),
      (chordMid p1 p2).2 + 2 * ((chordMid p1 p2).2 - (perpPoint p1 p2).2)),
     chordMid p1 p2)
  else
    (perpPoint p1 p2, chordMid p1 p2)

/-- Euclidean length of a segment given by its two endpoints. -/
noncomputable def segLength (s : RPt × RPt) : ℝ :=
  Real.sqrt ((s.1.1 - s.2.1) ^ 2 + (s.1.2 - s.2.2) ^ 2)

/-- C6: the claim fails on the code at a concrete input: for the
chord (0,0)-(2,0) with the room above the chord (so the initial
outside point (1,1) lands inside and the perpendicular flips), the
emitted segment runs from (1,-2) to the midpoint (1,0) and has length
exactly 2, not 1: the flip doubles the offset. -/
theorem C6_counterexample :
    walkwaySegment (0, 0) (2, 0) (fun p => if 0 < p.2 then true else false) =
      ((1, -2), (1, 0)) ∧
    segLength ((1, -2), (1, 0)) = 2 ∧ (2 : ℝ) ≠ 1 := by
  have hangle : chordAngle ((0 : ℝ), (0 : ℝ)) ((2 : ℝ), (0 : ℝ)) = 0 := by
    rw [chordAngle, atan2, Complex.arg_eq_zero_iff]
    constructor <;> norm_num
  have hperp : perpPoint ((0 : ℝ), (0 : ℝ)) ((2 : ℝ), (0 : ℝ)) = (1, 1) := by
    rw [perpPoint, hangle, chordMid]
    norm_num [Real.cos_pi_div_two, Real.sin_pi_div_two]
  have hmid : chordMid ((0 : ℝ), (0 : ℝ)) ((2 : ℝ), (0 : ℝ)) = (1, 0) := by
    rw [chordMid]
    norm_num
  have hc : (fun p : RPt => if 0 < p.2 then true else false)
      (perpPoint (0, 0) (2, 0)) = true := by
    rw [hperp]
    exact if_pos (by norm_num)
  refine ⟨?_, ?_, by norm_num⟩
  · rw [walkwaySegment, if_pos hc, hperp, hmid]
    norm_num
  · rw [segLength]
    rw [show (((1 : ℝ), (-2 : ℝ)), ((1 : ℝ), (0 : ℝ))).1.1 -
        (((1 : ℝ), (-2 : ℝ)), ((1 : ℝ), (0 : ℝ))).2.1 = 0 from by norm_num]
    rw [show (((1 : ℝ), (-2 : ℝ)), ((1 : ℝ), (0 : ℝ))).1.2 -
        (((1 : ℝ), (-2 : ℝ)), ((1 : ℝ), (0 : ℝ))).2.2 = -2 from by norm_num]
    rw [show (0 : ℝ) ^ 2 + (-2) ^ 2 = 2 ^ 2 from by norm_num,
      Real.sqrt_sq (by norm_num)]

/-- C6 (amended): when the initially chosen outward point lies
outside the room, the emitted line feature runs from that point to
the chord midpoint and has length exactly 1; when it lands inside,
the flip reassigns the endpoint to twice the opposite offset, so the
emitted feature runs from a point 2 units away on the opposite side
of the chord and has length exactly 2, not 1. -/
theorem C6_theorem (p1 p2 : RPt) (containsB : RPt → Bool) :
    (containsB (perpPoint p1 p2) = false →
      walkwaySegment p1 p2 containsB = (perpPoint p1 p2, chordMid p1 p2) ∧
      segLength (walkwaySegment p1 p2 containsB) = 1) ∧
    (containsB (perpPoint p1 p2) = true →
      (walkwaySegment p1 p2 containsB).1.1 - (chordMid p1 p2).1 =
        -2 * ((perpPoint p1 p2).1 - (chordMid p1 p2).1) ∧
      (walkwaySegment p1 p2 containsB).1.2 - (chordMid p1 p2).2 =
        -2 * ((perpPoint p1 p2).2 - (chordMid p1 p2).2) ∧
      segLength (walkwaySegment p1 p2 containsB) = 2) := by
  constructor
  · intro h
    have hseg : walkwaySegment p1 p2 containsB =
        (perpPoint p1 p2, chordMid p1 p2) := by
      rw [walkwaySegment, if_neg]
      rw [h]
      exact Bool.false_ne_true
    refine ⟨hseg, ?_⟩
    rw [hseg, segLength]
    have harith : ((perpPoint p1 p2, chordMid p1 p2).1.1 -
          (perpPoint p1 p2, chordMid p1 p2).2.1) ^ 2 +
        ((perpPoint p1 p2, chordMid p1 p2).1.2 -
          (perpPoint p1 p2, chordMid p1 p2).2.2) ^ 2 =
        Real.sin (chordAngle p1 p2 + Real.pi / 2) ^ 2 +
          Real.cos (chordAngle p1 p2 + Real.pi / 2) ^ 2 := by
      rw [perpPoint]
      ring
    rw [harith, Real.sin_sq_add_cos_sq, Real.sqrt_one]
  · intro h
    have hseg : walkwaySegment p1 p2 containsB =
        (((chordMid p1 p2).1 + 2 * ((chordMid p1 p2).1 - (perpPoint p1 p2).1),
          (chordMid p1 p2).2 + 2 * ((chordMid p1 p2).2 - (perpPoint p1 p2).2)),
         chordMid p1 p2) := by
      rw [walkwaySegment, if_pos h]
    refine ⟨by rw [hseg]; ring, by rw [hseg]; ring, ?_⟩
    rw [hseg, segLength]
    have harith : ((((chordMid p1 p2).1 + 2 * ((chordMid p1 p2).1 - (perpPoint p1 p2).1),
            (chordMid p1 p2).2 + 2 * ((chordMid p1 p2).2 - (perpPoint p1 p2).2)),
           chordMid p1 p2).1.1 -
          (((chordMid p1 p2).1 + 2 * ((chordMid p1 p2).1 - (perpPoint p1 p2).1),
            (chordMid p1 p2).2 + 2 * ((chordMid p1 p2).2 - (perpPoint p1 p2).2)),
           chordMid p1 p2).2.1) ^ 2 +
        ((((chordMid p1 p2).1 + 2 * ((chordMid p1 p2).1 - (perpPoint p1 p2).1),
            (chordMid p1 p2).2 + 2 * ((chordMid p1 p2).2 - (perpPoint p1 p2).2)),
           chordMid p1 p2).1.2 -
          (((chordMid p1 p2).1 + 2 * ((chordMid p1 p2).1 - (perpPoint p1 p2).1),
            (chordMid p1 p2).2 + 2 * ((chordMid p1 p2).2 - (perpPoint p1 p2).2)),
           chordMid p1 p2).2.2) ^ 2 =
        4 * (Real.sin (chordAngle p1 p2 + Real.pi / 2) ^ 2 +
          Real.cos (chordAngle p1 p2 + Real.pi / 2) ^ 2) := by
      rw [perpPoint]
      ring
    rw [harith, Real.sin_sq_add_cos_sq]
    rw [show (4 : ℝ) * 1 = 2 ^ 2 from by norm_num, Real.sqrt_sq (by norm_num)]

/-- C6 witness: the amended theorem evaluated on the chord
(0,0)-(2,0), once with a containment test that always fails (no flip,
length 1) and once with one that always succeeds (flip, length 2). -/
theorem C6_witness :
    (walkwaySegment (0, 0) (2, 0) (fun _ => false) =
        (perpPoint (0, 0) (2, 0), chordMid (0, 0) (2, 0)) ∧
      segLength (walkwaySegment (0, 0) (2, 0) (fun _ => false)) = 1) ∧
    ((walkwaySegment (0, 0) (2, 0) (fun _ => true)).1.1 -
        (chordMid (0, 0) (2, 0)).1 =
      -2 * ((perpPoint (0, 0) (2, 0)).1 - (chordMid (0, 0) (2, 0)).1) ∧
     (walkwaySegment (0, 0) (2, 0) (fun _ => true)).1.2 -
        (chordMid (0, 0) (2, 0)).2 =
      -2 * ((perpPoint (0, 0) (2, 0)).2 - (chordMid (0, 0) (2, 0)).2) ∧
     segLength (walkwaySegment (0, 0) (2, 0) (fun _ => true)) = 2) :=
  ⟨(C6_theorem (0, 0) (2, 0) (fun _ => false)).1 rfl,
   (C6_theorem (0, 0) (2, 0) (fun _ => true)).2 rfl⟩

end OsmFloorplans
